import Mathlib

/-!
# FlexFlow: deduplicated priority queue and multi-digraph edge queries

A shallow embedding of

* `lib/compiler/src/deduplicated_priority_queue.h` (`DeduplicatedPriorityQueue`),
* `lib/utils/src/graph/multidigraph.cc` (`MultiDiEdge`, `MultiDiEdgeQuery`),
* `lib/utils/include/utils/graph/construction.h` (`make_multidigraph`),

followed by theorems about the embedded operations.

Conventions.

* `size_t` values are natural numbers; no arithmetic is performed on them in the
  embedded code, so no wrap-around occurs.
* `std::unordered_set<T>` is `Finset T`, `tl::optional<T>` is `Option T`.
* A call either returns, throws, or violates a precondition of a standard
  container (undefined behaviour): see `Outcome`.
-/

set_option autoImplicit false

namespace FlexFlow

/-! ## Outcomes of calls -/

/-- Result of a member-function call: a returned value, a thrown
`std::runtime_error` carrying its message, or undefined behaviour (a standard
container was used outside its precondition, nothing is thrown or reported). -/
inductive Outcome (α : Type) where
  | value (a : α)
  | raised (what : String)
  | undefined
  deriving DecidableEq, Repr

namespace Outcome

/-- Sequencing of calls: the first failure ends the chain. -/
def bind {α β : Type} : Outcome α → (α → Outcome β) → Outcome β
  | value a, f => f a
  | raised w, _ => raised w
  | undefined, _ => undefined

/-- The call threw an exception. -/
def isRaised {α : Type} : Outcome α → Bool
  | raised _ => true
  | _ => false

/-- The call returned normally. -/
def isValue {α : Type} : Outcome α → Bool
  | value _ => true
  | _ => false

end Outcome

/-! ## `std::priority_queue<Elem, Container, Compare>`

The standard adaptor is not code of the repository.  It is modelled by its
contract in the C++ standard: `push(x)` is `c.push_back(x)` followed by
`push_heap`, `pop()` is `pop_heap` followed by `c.pop_back()`, `top()` is
`c.front()`, and the container is a heap with respect to `Compare` between
calls.  The standard fixes neither the arrangement of the heap nor the order of
equivalent elements; the model keeps the container in the fully sorted heap
arrangement (no element is `Compare`-less than a later one), inserting a new
element in front of the first element that is strictly less than it.
`front()` and `pop_back()` of an empty container are undefined behaviour. -/
namespace PriorityQueue

variable {Elem : Type}

/-- Member `push` of the adaptor: `c.push_back(e); push_heap(c.begin(), c.end(), comp)`. -/
def push (Compare : Elem → Elem → Bool) (e : Elem) : List Elem → List Elem
  | [] => [e]
  | x :: xs => if Compare x e then e :: x :: xs else x :: push Compare e xs

/-- Member `top` of the adaptor: `c.front()`. -/
def top : List Elem → Outcome Elem
  | [] => Outcome.undefined
  | x :: _ => Outcome.value x

/-- Member `pop` of the adaptor: `pop_heap(c.begin(), c.end(), comp); c.pop_back()`. -/
def pop : List Elem → Outcome (List Elem)
  | [] => Outcome.undefined
  | _ :: xs => Outcome.value xs

/-- Member `empty` of the adaptor: `c.empty()`. -/
def empty (c : List Elem) : Bool := c.isEmpty

/-- Member `size` of the adaptor: `c.size()`. -/
def size (c : List Elem) : Nat := c.length

/-- The heap arrangement kept by the model: no element is less than a later one. -/
def Ordered (cmp : Elem → Elem → Bool) (l : List Elem) : Prop :=
  l.Pairwise (fun a b => cmp a b = false)

end PriorityQueue

/-! ## `DeduplicatedPriorityQueue` -/

/-- Template arguments of `DeduplicatedPriorityQueue<Elem, Container, Compare, Hash>`
that its member functions use: the comparator, the hash functor, and the
implicit conversion of an `Elem` to `size_t` that the call
`contains(hashmap, e)` applies to its second argument (the key type of
`hashmap` is `size_t`; for `Elem = size_t` the conversion is the identity). -/
structure Template (Elem : Type) where
  Compare : Elem → Elem → Bool
  Hash : Elem → Nat
  toSizeT : Elem → Nat

/-- Data members of the class: `impl`, the priority queue, and `hashmap`, the
set of recorded hashes. -/
structure DeduplicatedPriorityQueue (Elem : Type) where
  impl : List Elem
  hashmap : Finset Nat
  deriving DecidableEq

/-- Modelled from the spec: `contains` is declared in `utils/containers.h`, which
is not among the sources; it is the membership test of a container ("already
present in the membership set"), `c.find(e) != c.end()`. -/
def contains (c : Finset Nat) (e : Nat) : Bool := decide (e ∈ c)

namespace DeduplicatedPriorityQueue

variable {Elem : Type}

/-- A default-constructed queue: both members empty. -/
def mk0 : DeduplicatedPriorityQueue Elem := ⟨[], ∅⟩

/-- Member `top`: `return impl.top();`. -/
def top (q : DeduplicatedPriorityQueue Elem) : Outcome Elem :=
  PriorityQueue.top q.impl

/-- Member `empty`: `return impl.empty();`. -/
def empty (q : DeduplicatedPriorityQueue Elem) : Bool :=
  PriorityQueue.empty q.impl

/-- Member `size`: `return impl.size();`. -/
def size (q : DeduplicatedPriorityQueue Elem) : Nat :=
  PriorityQueue.size q.impl

/-- Member `push`:
`size_t hash = Hash{}(e); if (!contains(hashmap, e)) { impl.push(e); hashmap.insert(hash); }`.
The membership test receives `e`, converted to the key type `size_t`. -/
def push (T : Template Elem) (q : DeduplicatedPriorityQueue Elem) (e : Elem) :
    DeduplicatedPriorityQueue Elem :=
  let hash := T.Hash e
  if !contains q.hashmap (T.toSizeT e) then
    { impl := PriorityQueue.push T.Compare e q.impl
      hashmap := insert hash q.hashmap }
  else q

/-- Member `pop`: `hashmap.erase(Hash{}(impl.top())); impl.pop();`. -/
def pop (T : Template Elem) (q : DeduplicatedPriorityQueue Elem) :
    Outcome (DeduplicatedPriorityQueue Elem) :=
  (PriorityQueue.top q.impl).bind fun t =>
    let hashmap1 := q.hashmap.erase (T.Hash t)
    (PriorityQueue.pop q.impl).bind fun impl1 =>
      Outcome.value { impl := impl1, hashmap := hashmap1 }

/-- Member-function calls of the class. -/
inductive Call (Elem : Type) where
  | top
  | empty
  | size
  | push (e : Elem)
  | pop

/-- What a call hands back to the caller. -/
inductive Ret (Elem : Type) where
  | elem (e : Elem)
  | bool (b : Bool)
  | nat (n : Nat)
  | void
  deriving DecidableEq

/-- One call on the object `q`: the returned value together with the object
after the call.  `top`, `empty` and `size` are `const` members. -/
def call (T : Template Elem) (q : DeduplicatedPriorityQueue Elem) :
    Call Elem → Outcome (Ret Elem × DeduplicatedPriorityQueue Elem)
  | Call.top => (top q).bind fun t => Outcome.value (Ret.elem t, q)
  | Call.empty => Outcome.value (Ret.bool (empty q), q)
  | Call.size => Outcome.value (Ret.nat (size q), q)
  | Call.push e => Outcome.value (Ret.void, push T q e)
  | Call.pop => (pop T q).bind fun q1 => Outcome.value (Ret.void, q1)

/-- The value a call removes from the queue: for `pop`, the value of `top()`
immediately before it; nothing for the other calls. -/
def removed (q : DeduplicatedPriorityQueue Elem) : Call Elem → List Elem
  | Call.pop =>
    match top q with
    | Outcome.value t => [t]
    | _ => []
  | _ => []

/-- A sequence of calls on `q`, left to right: the object at the end and the
values removed by the `pop` calls, in the order of removal. -/
def run (T : Template Elem) :
    List (Call Elem) → DeduplicatedPriorityQueue Elem →
      Outcome (DeduplicatedPriorityQueue Elem × List Elem)
  | [], q => Outcome.value (q, [])
  | c :: cs, q =>
    (call T q c).bind fun r =>
      (run T cs r.2).bind fun s =>
        Outcome.value (s.1, removed q c ++ s.2)

/-- The call is a `push`. -/
def Call.isPush : Call Elem → Bool
  | Call.push _ => true
  | _ => false

end DeduplicatedPriorityQueue

/-- The requirement the standard places on `Compare`: a strict weak ordering
(irreflexive, transitive, with transitive incomparability). -/
structure StrictWeakOrdering {Elem : Type} (lt : Elem → Elem → Bool) : Prop where
  irrefl : ∀ a, lt a a = false
  trans : ∀ a b c, lt a b = true → lt b c = true → lt a c = true
  incomp_trans : ∀ a b c, lt a b = false → lt b a = false → lt b c = false → lt c b = false →
    lt a c = false ∧ lt c a = false

/-! ## `MultiDiEdge` and `MultiDiEdgeQuery`

The class declarations live in `utils/graph/node.h` and
`utils/graph/multidigraph.h`, which are not among the sources; the fields are
the ones the member functions in `multidigraph.cc` read and write. -/
namespace utils

/-- Modelled from the spec: the class `Node` is declared in `utils/graph/node.h`,
which is not among the sources; an opaque comparable identifier, whose member
`idx` is the one `operator<<` prints. -/
structure Node where
  idx : Nat
  deriving DecidableEq, Repr

/-- Modelled from the spec: the class `MultiDiEdge` is declared in
`utils/graph/multidigraph.h`, which is not among the sources; a 4-tuple, with
the four members set by the constructor
`MultiDiEdge(Node src, Node dst, size_t srcIdx, size_t dstIdx)`. -/
structure MultiDiEdge where
  src : Node
  dst : Node
  srcIdx : Nat
  dstIdx : Nat
  deriving DecidableEq, Repr

/-- Modelled from the spec: the class `MultiDiEdgeQuery` is declared in
`utils/graph/multidigraph.h`, which is not among the sources; four optional
candidate sets, the members the setters of `multidigraph.cc` test against
`tl::nullopt` and assign.  A value-initialised query (`MultiDiEdgeQuery{}`) has
every member equal to `tl::nullopt` ("unset"). -/
structure MultiDiEdgeQuery where
  srcs : Option (Finset Node) := none
  dsts : Option (Finset Node) := none
  srcIdxs : Option (Finset Nat) := none
  dstIdxs : Option (Finset Nat) := none
  deriving DecidableEq

namespace MultiDiEdgeQuery

/-- Member `with_src_nodes`: copy the receiver, throw if `srcs` is engaged,
otherwise assign `nodes` to `srcs` of the copy and return it. -/
def with_src_nodes (self : MultiDiEdgeQuery) (nodes : Finset Node) : Outcome MultiDiEdgeQuery :=
  let e := self
  if e.srcs ≠ none then Outcome.raised "expected srcs == tl::nullopt"
  else Outcome.value { e with srcs := some nodes }

/-- Member `with_dst_nodes`: as `with_src_nodes`, on `dsts`. -/
def with_dst_nodes (self : MultiDiEdgeQuery) (nodes : Finset Node) : Outcome MultiDiEdgeQuery :=
  let e := self
  if e.dsts ≠ none then Outcome.raised "expected dsts == tl::nullopt"
  else Outcome.value { e with dsts := some nodes }

/-- Member `with_src_idxs`: as `with_src_nodes`, on `srcIdxs`. -/
def with_src_idxs (self : MultiDiEdgeQuery) (idxs : Finset Nat) : Outcome MultiDiEdgeQuery :=
  let e := self
  if e.srcIdxs ≠ none then Outcome.raised "expected srcIdxs == tl::nullopt"
  else Outcome.value { e with srcIdxs := some idxs }

/-- Member `with_dst_idxs`: as `with_src_nodes`, on `dstIdxs`. -/
def with_dst_idxs (self : MultiDiEdgeQuery) (idxs : Finset Nat) : Outcome MultiDiEdgeQuery :=
  let e := self
  if e.dstIdxs ≠ none then Outcome.raised "expected dstIdxs == tl::nullopt"
  else Outcome.value { e with dstIdxs := some idxs }

/-- Static member `all`: `return MultiDiEdgeQuery{};`. -/
def all : MultiDiEdgeQuery := {}

/-- Number of engaged members of a query. -/
def populated (q : MultiDiEdgeQuery) : Nat :=
  (if q.srcs.isSome then 1 else 0) + (if q.dsts.isSome then 1 else 0) +
    (if q.srcIdxs.isSome then 1 else 0) + (if q.dstIdxs.isSome then 1 else 0)

end MultiDiEdgeQuery

end utils

/-! ## Further members of `MultiDiEdge` and `MultiDiEdgeQuery` -/

/-- A strict total order, the requirement on the comparison `operator<` of
`Node` (declared in `utils/graph/node.h`, not among the sources; the
comparison is a parameter of the definitions that use it). -/
structure StrictTotalOrdering {α : Type} (lt : α → α → Bool) : Prop where
  irrefl : ∀ a, lt a a = false
  trans : ∀ a b c, lt a b = true → lt b c = true → lt a c = true
  total : ∀ a b, a ≠ b → lt a b = true ∨ lt b a = true

namespace utils

/-- The type `AsConstTuple`: a tuple of the four members. -/
abbrev AsConstTuple : Type := Node × Node × Nat × Nat

/-- Operator `==` of `std::tuple`: every pair of corresponding elements is equal. -/
def tuple_eq (a b : AsConstTuple) : Bool :=
  a.1 == b.1 && a.2.1 == b.2.1 && a.2.2.1 == b.2.2.1 && a.2.2.2 == b.2.2.2

/-- Operator `<` of `std::tuple`: at each position, `x < y`, or else
`!(y < x)` and the comparison of the remaining positions; the empty remainder
compares `false`.  `nodeLt` is `operator<` of `Node`. -/
def tuple_lt (nodeLt : Node → Node → Bool) (a b : AsConstTuple) : Bool :=
  nodeLt a.1 b.1 || (!nodeLt b.1 a.1 &&
    (nodeLt a.2.1 b.2.1 || (!nodeLt b.2.1 a.2.1 &&
      (decide (a.2.2.1 < b.2.2.1) || (!decide (b.2.2.1 < a.2.2.1) &&
        (decide (a.2.2.2 < b.2.2.2) || (!decide (b.2.2.2 < a.2.2.2) && false)))))))

namespace MultiDiEdge

/-- Member `as_tuple`: `return {this->src, this->dst, this->srcIdx, this->dstIdx};`. -/
def as_tuple (self : MultiDiEdge) : AsConstTuple :=
  (self.src, self.dst, self.srcIdx, self.dstIdx)

/-- Member `operator==`: `return this->as_tuple() == other.as_tuple();`. -/
def eq (self other : MultiDiEdge) : Bool :=
  tuple_eq self.as_tuple other.as_tuple

/-- Member `operator<`: `return this->as_tuple() < other.as_tuple();`. -/
def lt (nodeLt : Node → Node → Bool) (self other : MultiDiEdge) : Bool :=
  tuple_lt nodeLt self.as_tuple other.as_tuple

/-- The specialisation `std::hash<MultiDiEdge>::operator()`:
`return get_std_hash(e.as_tuple());`.  `get_std_hash` is declared in
`utils/hash-utils.h`, which is not among the sources, and is a parameter. -/
def hash (get_std_hash : AsConstTuple → Nat) (e : MultiDiEdge) : Nat :=
  get_std_hash e.as_tuple

/-- The lexicographic order on edges in the words of the specification:
source first, then destination, then source slot, then destination slot. -/
def lexLess (nodeLt : Node → Node → Bool) (a b : MultiDiEdge) : Prop :=
  nodeLt a.src b.src = true ∨ (a.src = b.src ∧
    (nodeLt a.dst b.dst = true ∨ (a.dst = b.dst ∧
      (a.srcIdx < b.srcIdx ∨ (a.srcIdx = b.srcIdx ∧ a.dstIdx < b.dstIdx)))))

end MultiDiEdge

namespace MultiDiEdgeQuery

/-- Member `with_src_node`: `return this->with_src_nodes({n});`. -/
def with_src_node (self : MultiDiEdgeQuery) (n : Node) : Outcome MultiDiEdgeQuery :=
  self.with_src_nodes {n}

/-- Member `with_dst_node`: `return this->with_dst_nodes({n});`. -/
def with_dst_node (self : MultiDiEdgeQuery) (n : Node) : Outcome MultiDiEdgeQuery :=
  self.with_dst_nodes {n}

/-- Member `with_src_idx`: `return this->with_src_idxs({idx});`. -/
def with_src_idx (self : MultiDiEdgeQuery) (idx : Nat) : Outcome MultiDiEdgeQuery :=
  self.with_src_idxs {idx}

/-- Member `with_dst_idx`: `return this->with_dst_idxs({idx});`. -/
def with_dst_idx (self : MultiDiEdgeQuery) (idx : Nat) : Outcome MultiDiEdgeQuery :=
  self.with_dst_idxs {idx}

/-- The four members of a query. -/
inductive Dim where
  | srcs
  | dsts
  | srcIdxs
  | dstIdxs
  deriving DecidableEq, Fintype, Repr

/-- A call of one of the four plural setters, with its argument. -/
inductive Setter where
  | src_nodes (nodes : Finset Node)
  | dst_nodes (nodes : Finset Node)
  | src_idxs (idxs : Finset Nat)
  | dst_idxs (idxs : Finset Nat)
  deriving DecidableEq

/-- The member a setter names. -/
def Setter.dim : Setter → Dim
  | Setter.src_nodes _ => Dim.srcs
  | Setter.dst_nodes _ => Dim.dsts
  | Setter.src_idxs _ => Dim.srcIdxs
  | Setter.dst_idxs _ => Dim.dstIdxs

/-- The setter call applied to a receiver. -/
def Setter.apply (q : MultiDiEdgeQuery) : Setter → Outcome MultiDiEdgeQuery
  | Setter.src_nodes S => q.with_src_nodes S
  | Setter.dst_nodes S => q.with_dst_nodes S
  | Setter.src_idxs S => q.with_src_idxs S
  | Setter.dst_idxs S => q.with_dst_idxs S

/-- A chain of setter calls `q.s1(..).s2(..)...`, left to right; an exception
thrown by one call ends the chain. -/
def chain : List Setter → MultiDiEdgeQuery → Outcome MultiDiEdgeQuery
  | [], q => Outcome.value q
  | s :: ss, q => (s.apply q).bind (chain ss)

/-- Whether the member `d` of the query is engaged. -/
def engaged (q : MultiDiEdgeQuery) : Dim → Bool
  | Dim.srcs => q.srcs.isSome
  | Dim.dsts => q.dsts.isSome
  | Dim.srcIdxs => q.srcIdxs.isSome
  | Dim.dstIdxs => q.dstIdxs.isSome

/-- Modelled from the spec: the edge test of `query_edges`, whose definition
(class `MultiDiGraph`) is not among the sources: "`q.srcs` is unset or contains
the edge's source; AND `q.dsts` is unset or contains the edge's destination;
AND `q.srcIdxs` is unset or contains the edge's source-slot; AND `q.dstIdxs` is
unset or contains the edge's destination-slot". -/
def satisfies (q : MultiDiEdgeQuery) (e : MultiDiEdge) : Bool :=
  (match q.srcs with
    | none => true
    | some S => decide (e.src ∈ S)) &&
  (match q.dsts with
    | none => true
    | some S => decide (e.dst ∈ S)) &&
  (match q.srcIdxs with
    | none => true
    | some S => decide (e.srcIdx ∈ S)) &&
  (match q.dstIdxs with
    | none => true
    | some S => decide (e.dstIdx ∈ S))

end MultiDiEdgeQuery

/-- Modelled from the spec: `query_edges` of `MultiDiGraph`, which is not among
the sources: "returns the subset of edges matching all populated dimensions of
`q`"; `edges` is the edge set of the graph. -/
def query_edges (edges : Finset MultiDiEdge) (q : MultiDiEdgeQuery) : Finset MultiDiEdge :=
  edges.filter fun e => q.satisfies e = true

/-! ## `make_multidigraph` -/

/-- The operations of a graph type `G` that `make_multidigraph<G>` uses:
default construction, `add_node` and `add_edge`; together with the two
observations in which the graph contract is phrased, the node set and the edge
set of a graph.  The type `G` is a template parameter. -/
structure GraphType (G : Type) where
  default : G
  add_node : G → Node × G
  add_edge : G → MultiDiEdge → G
  nodes : G → Finset Node
  edges : G → Finset MultiDiEdge

/-- The graph contract: a default-constructed graph is empty, `add_node`
returns a node not yet in the graph and adds it, `add_edge` is set insertion
into the edge set. -/
structure GraphContract {G : Type} (ops : GraphType G) : Prop where
  default_nodes : ops.nodes ops.default = ∅
  default_edges : ops.edges ops.default = ∅
  add_node_fresh : ∀ g, (ops.add_node g).1 ∉ ops.nodes g
  add_node_nodes : ∀ g, ops.nodes (ops.add_node g).2 = insert (ops.add_node g).1 (ops.nodes g)
  add_node_edges : ∀ g, ops.edges (ops.add_node g).2 = ops.edges g
  add_edge_nodes : ∀ g e, ops.nodes (ops.add_edge g e) = ops.nodes g
  add_edge_edges : ∀ g e, ops.edges (ops.add_edge g e) = insert e (ops.edges g)

/-- The first loop of `make_multidigraph`:
`for (i = 0; i < num_nodes; i++) { nodes.push_back(g.add_node()); }`,
started with the graph `g` and the vector `nodes`. -/
def add_nodes {G : Type} (ops : GraphType G) : Nat → G → List Node → List Node × G
  | 0, g, nodes => (nodes, g)
  | n + 1, g, nodes =>
    let r := ops.add_node g
    add_nodes ops n r.2 (nodes ++ [r.1])

/-- The function `make_multidigraph<G>(num_nodes, edges)`: a default-constructed
`g`, the loop of `add_node` calls filling `nodes`, then `g.add_edge(e)` for
every `e` of `edges(nodes)`.  The `std::unordered_set` returned by `edges` is
given by the sequence in which the range-for visits its elements. -/
def make_multidigraph {G : Type} (ops : GraphType G) (num_nodes : Nat)
    (edges : List Node → List MultiDiEdge) : G :=
  let g := ops.default
  let r := add_nodes ops num_nodes g []
  (edges r.1).foldl ops.add_edge r.2

/-- The vector `nodes` that `make_multidigraph` passes to `edges`. -/
def created_nodes {G : Type} (ops : GraphType G) (num_nodes : Nat) : List Node :=
  (add_nodes ops num_nodes ops.default []).1

/-- A graph type for the examples: the nodes in order of creation and an edge
set; a fresh node gets an `idx` above those of all nodes of the graph. -/
structure ListGraph where
  nodeList : List Node
  edgeSet : Finset MultiDiEdge
  deriving DecidableEq

/-- The node `ListGraph` hands out next. -/
def ListGraph.fresh (g : ListGraph) : Node :=
  ⟨(g.nodeList.map Node.idx).foldr max 0 + 1⟩

/-- The operations of `ListGraph`. -/
def listGraph : GraphType ListGraph where
  default := ⟨[], ∅⟩
  add_node := fun g => (g.fresh, ⟨g.nodeList ++ [g.fresh], g.edgeSet⟩)
  add_edge := fun g e => ⟨g.nodeList, insert e g.edgeSet⟩
  nodes := fun g => g.nodeList.toFinset
  edges := fun g => g.edgeSet

/-- The edge set of the example graph: `n0 → n1` on slots `0 → 0` and `1 → 0`,
`n1 → n2` on slots `0 → 1`. -/
def exampleEdges : Finset MultiDiEdge :=
  {⟨⟨0⟩, ⟨1⟩, 0, 0⟩, ⟨⟨0⟩, ⟨1⟩, 1, 0⟩, ⟨⟨1⟩, ⟨2⟩, 0, 1⟩}

/-- The query `all().with_src_node(n0).with_dst_idx(0)`. -/
def exampleQuery : MultiDiEdgeQuery :=
  ⟨some {⟨0⟩}, none, none, some {0}⟩

end utils

/-! ## Further definitions for the queue -/

namespace DeduplicatedPriorityQueue

variable {Elem : Type}

/-- The hash-keyed `push` in the words of the specification: "computes
`h = hash(e)`.  If `h` is already present in the membership set, the call is a
no-op.  If `h` is absent, `e` is inserted into the underlying priority
structure and `h` is recorded as present." -/
def pushHashKeyed (T : Template Elem) (q : DeduplicatedPriorityQueue Elem) (e : Elem) :
    DeduplicatedPriorityQueue Elem :=
  let h := T.Hash e
  if h ∈ q.hashmap then q
  else
    { impl := PriorityQueue.push T.Compare e q.impl
      hashmap := insert h q.hashmap }

/-- The draining loop of a caller,
`while (!q.empty()) { out.push_back(q.top()); q.pop(); }`,
run for at most `fuel` iterations: `none` when the iterations are used up
before `empty()` holds, otherwise the outcome with the values in the order of
removal and the object at the end. -/
def drain (T : Template Elem) :
    Nat → DeduplicatedPriorityQueue Elem →
      Option (Outcome (List Elem × DeduplicatedPriorityQueue Elem))
  | fuel, q =>
    if empty q then some (Outcome.value ([], q))
    else
      match fuel with
      | 0 => none
      | n + 1 =>
        match top q, pop T q with
        | Outcome.value t, Outcome.value q1 =>
          match drain T n q1 with
          | some (Outcome.value r) => some (Outcome.value (t :: r.1, r.2))
          | other => other
        | _, _ => some Outcome.undefined

end DeduplicatedPriorityQueue

/-! ## Instances used in the examples

Queues of `size_t` elements ordered by `std::less<size_t>`; the conversion in
`contains(hashmap, e)` is the identity. -/

/-- `std::less<size_t>`. -/
def lessNat (a b : Nat) : Bool := decide (a < b)

/-- `Hash` functor returning `5` for every element. -/
def templateConst5 : Template Nat := ⟨lessNat, fun _ => 5, id⟩

/-- `Hash` functor returning `e + 1`. -/
def templateSucc : Template Nat := ⟨lessNat, fun e => e + 1, id⟩

/-- `Hash` functor returning `e` itself (as `std::hash<size_t>` of libstdc++). -/
def templateId : Template Nat := ⟨lessNat, fun e => e, id⟩

end FlexFlow

/-! # Theorems -/

namespace FlexFlow

/-! ## Auxiliary facts -/

theorem Outcome.bind_eq_value {α β : Type} (o : Outcome α) (f : α → Outcome β) (b : β) :
    o.bind f = Outcome.value b ↔ ∃ a, o = Outcome.value a ∧ f a = Outcome.value b := by
  cases o <;> simp [Outcome.bind]

namespace PriorityQueue

variable {Elem : Type}

theorem push_perm (cmp : Elem → Elem → Bool) (e : Elem) (l : List Elem) :
    (push cmp e l).Perm (e :: l) := by
  induction l with
  | nil => simp [push]
  | cons x xs ih =>
    unfold push
    split
    · exact List.Perm.refl _
    · exact (List.Perm.cons x ih).trans (List.Perm.swap e x xs)

theorem mem_push (cmp : Elem → Elem → Bool) (e y : Elem) (l : List Elem) :
    y ∈ push cmp e l ↔ y = e ∨ y ∈ l := by
  rw [(push_perm cmp e l).mem_iff]
  simp

theorem length_push (cmp : Elem → Elem → Bool) (e : Elem) (l : List Elem) :
    (push cmp e l).length = l.length + 1 := by
  rw [(push_perm cmp e l).length_eq]
  simp

theorem push_ordered {cmp : Elem → Elem → Bool} (hc : StrictWeakOrdering cmp) (e : Elem)
    (l : List Elem) (hl : Ordered cmp l) : Ordered cmp (push cmp e l) := by
  induction l with
  | nil => simp [push, Ordered]
  | cons x xs ih =>
    have hx := List.pairwise_cons.mp hl
    unfold push
    split
    · rename_i hxe
      refine List.pairwise_cons.mpr ⟨?_, hl⟩
      intro y hy
      by_contra hey
      have hey1 : cmp e y = true := by simpa using hey
      have hxy : cmp x y = true := hc.trans x e y hxe hey1
      rcases List.mem_cons.mp hy with h | h
      · subst h
        rw [hc.irrefl] at hxy
        exact Bool.noConfusion hxy
      · rw [hx.1 y h] at hxy
        exact Bool.noConfusion hxy
    · rename_i hxe
      refine List.pairwise_cons.mpr ⟨?_, ih hx.2⟩
      intro y hy
      rcases (mem_push cmp e y xs).mp hy with h | h
      · subst h
        simpa using hxe
      · exact hx.1 y h

end PriorityQueue

namespace DeduplicatedPriorityQueue

variable {Elem : Type}

theorem push_impl_ordered {T : Template Elem} (hc : StrictWeakOrdering T.Compare)
    (q : DeduplicatedPriorityQueue Elem) (e : Elem)
    (hq : PriorityQueue.Ordered T.Compare q.impl) :
    PriorityQueue.Ordered T.Compare (push T q e).impl := by
  unfold push
  split
  · exact PriorityQueue.push_ordered hc e q.impl hq
  · exact hq

theorem pop_eq_value (T : Template Elem) (q q1 : DeduplicatedPriorityQueue Elem) :
    pop T q = Outcome.value q1 ↔
      ∃ t rest, q.impl = t :: rest ∧ q1 = ⟨rest, q.hashmap.erase (T.Hash t)⟩ := by
  obtain ⟨impl, hm⟩ := q
  cases impl with
  | nil => simp [pop, PriorityQueue.top, Outcome.bind]
  | cons t rest =>
    simp only [pop, PriorityQueue.top, PriorityQueue.pop, Outcome.bind, Outcome.value.injEq,
      List.cons.injEq]
    constructor
    · intro h
      exact ⟨t, rest, ⟨rfl, rfl⟩, h.symm⟩
    · rintro ⟨t1, rest1, ⟨rfl, rfl⟩, h⟩
      exact h.symm

theorem top_eq_value (q : DeduplicatedPriorityQueue Elem) (t : Elem) :
    top q = Outcome.value t ↔ ∃ rest, q.impl = t :: rest := by
  obtain ⟨impl, hm⟩ := q
  cases impl with
  | nil => simp [top, PriorityQueue.top]
  | cons x rest => simp [top, PriorityQueue.top, eq_comm]

theorem call_eq_value (T : Template Elem) (q q1 : DeduplicatedPriorityQueue Elem)
    (c : Call Elem) (r : Ret Elem) (h : call T q c = Outcome.value (r, q1)) :
    (c.isPush = false ∧ q1 = q ∧ removed q c = []) ∨
      (∃ e, c = Call.push e ∧ q1 = push T q e ∧ removed q c = []) ∨
      (c = Call.pop ∧ ∃ t rest, q.impl = t :: rest ∧
        q1 = ⟨rest, q.hashmap.erase (T.Hash t)⟩ ∧ removed q c = [t]) := by
  cases c with
  | top =>
    left
    simp only [call, Outcome.bind_eq_value] at h
    obtain ⟨t, ht, h⟩ := h
    simp only [Outcome.value.injEq, Prod.mk.injEq] at h
    exact ⟨rfl, h.2.symm, rfl⟩
  | empty =>
    left
    simp only [call, Outcome.value.injEq, Prod.mk.injEq] at h
    exact ⟨rfl, h.2.symm, rfl⟩
  | size =>
    left
    simp only [call, Outcome.value.injEq, Prod.mk.injEq] at h
    exact ⟨rfl, h.2.symm, rfl⟩
  | push e =>
    right; left
    simp only [call, Outcome.value.injEq, Prod.mk.injEq] at h
    exact ⟨e, rfl, h.2.symm, rfl⟩
  | pop =>
    right; right
    simp only [call, Outcome.bind_eq_value] at h
    obtain ⟨q2, hq2, h⟩ := h
    simp only [Outcome.value.injEq, Prod.mk.injEq] at h
    obtain ⟨t, rest, h1, h2⟩ := (pop_eq_value T q q2).mp hq2
    refine ⟨rfl, t, rest, h1, ?_, ?_⟩
    · rw [← h.2, h2]
    · simp [removed, top, PriorityQueue.top, h1]

theorem run_cons_eq_value (T : Template Elem) (c : Call Elem) (cs : List (Call Elem))
    (q q2 : DeduplicatedPriorityQueue Elem) (out : List Elem) :
    run T (c :: cs) q = Outcome.value (q2, out) ↔
      ∃ r q1 out1, call T q c = Outcome.value (r, q1) ∧
        run T cs q1 = Outcome.value (q2, out1) ∧ out = removed q c ++ out1 := by
  simp only [run, Outcome.bind_eq_value, Outcome.value.injEq, Prod.mk.injEq]
  constructor
  · rintro ⟨⟨r, q1⟩, h1, ⟨q3, out1⟩, h2, h3, h4⟩
    simp only at h2 h3 h4
    subst h3
    exact ⟨r, q1, out1, h1, h2, h4.symm⟩
  · rintro ⟨r, q1, out1, h1, h2, h3⟩
    exact ⟨(r, q1), h1, (q2, out1), h2, rfl, h3.symm⟩

/-- A property of the object kept by `push` and by `pop` holds after every
sequence of calls. -/
theorem run_invariant (T : Template Elem) (P : DeduplicatedPriorityQueue Elem → Prop)
    (hpush : ∀ q e, P q → P (push T q e))
    (hpop : ∀ q t rest, P q → q.impl = t :: rest → P ⟨rest, q.hashmap.erase (T.Hash t)⟩) :
    ∀ (cs : List (Call Elem)) (q q2 : DeduplicatedPriorityQueue Elem) (out : List Elem),
      P q → run T cs q = Outcome.value (q2, out) → P q2 := by
  intro cs
  induction cs with
  | nil =>
    intro q q2 out hq h
    simp only [run, Outcome.value.injEq, Prod.mk.injEq] at h
    rw [← h.1]
    exact hq
  | cons c cs ih =>
    intro q q2 out hq h
    obtain ⟨r, q1, out1, h1, h2, -⟩ := (run_cons_eq_value T c cs q q2 out).mp h
    refine ih q1 q2 out1 ?_ h2
    rcases call_eq_value T q q1 c r h1 with ⟨-, h, -⟩ | ⟨e, -, h, -⟩ | ⟨-, t, rest, h3, h, -⟩
    · rw [h]; exact hq
    · rw [h]; exact hpush q e hq
    · rw [h]; exact hpop q t rest hq h3

/-- After any sequence of calls on a default-constructed queue the container of
`impl` is in the arrangement of the model. -/
theorem run_ordered {T : Template Elem} (hc : StrictWeakOrdering T.Compare)
    (cs : List (Call Elem)) (q : DeduplicatedPriorityQueue Elem) (out : List Elem)
    (h : run T cs mk0 = Outcome.value (q, out)) : PriorityQueue.Ordered T.Compare q.impl := by
  refine run_invariant T (fun q => PriorityQueue.Ordered T.Compare q.impl)
    (fun q e hq => push_impl_ordered hc q e hq) ?_ cs mk0 q out ?_ h
  · intro q t rest hq hrest
    rw [hrest] at hq
    exact (List.pairwise_cons.mp hq).2
  · exact List.Pairwise.nil

/-- Calls other than `push` remove a front segment of the container. -/
theorem run_without_push (T : Template Elem) :
    ∀ (cs : List (Call Elem)) (q q2 : DeduplicatedPriorityQueue Elem) (out : List Elem),
      (∀ c ∈ cs, c.isPush = false) → run T cs q = Outcome.value (q2, out) →
        q.impl = out ++ q2.impl := by
  intro cs
  induction cs with
  | nil =>
    intro q q2 out _ h
    simp only [run, Outcome.value.injEq, Prod.mk.injEq] at h
    rw [← h.1, ← h.2]
    rfl
  | cons c cs ih =>
    intro q q2 out hcs h
    obtain ⟨r, q1, out1, h1, h2, h3⟩ := (run_cons_eq_value T c cs q q2 out).mp h
    have ih1 := ih q1 q2 out1 (fun c1 hc1 => hcs c1 (List.mem_cons_of_mem c hc1)) h2
    rcases call_eq_value T q q1 c r h1 with ⟨-, h, hr⟩ | ⟨e, he, -, -⟩ | ⟨-, t, rest, h4, h, hr⟩
    · rw [h3, hr, List.nil_append, ← ih1, h]
    · have := hcs c (List.mem_cons_self c cs)
      rw [he] at this
      exact Bool.noConfusion this
    · rw [h] at ih1
      simp only at ih1
      rw [h3, hr, h4, ih1]
      rfl

end DeduplicatedPriorityQueue

theorem strictWeakOrdering_lessNat : StrictWeakOrdering lessNat := by
  refine ⟨?_, ?_, ?_⟩
  · intro a
    simp [lessNat]
  · intro a b c
    simp only [lessNat, decide_eq_true_eq]
    omega
  · intro a b c
    simp only [lessNat, decide_eq_false_iff_not]
    omega

/-! ## The deduplicated priority queue -/

namespace DeduplicatedPriorityQueue

/-- C1 (the code evaluated where it departs from the claim).  `push` tests the
element, not its hash, against the recorded hashes.  With `Hash` constant `5`
and the queue holding `10`: the hash of `3` is recorded, yet `push(3)` stores
`3` and `size()` grows from 1 to 2.  With `Hash(e) = e + 1` and the queue
holding `4` (recorded hash `5`): the hash `6` of `5` is not recorded, yet
`push(5)` leaves the queue as it was and `5` is not stored. -/
theorem C1_push_tests_element_against_hashes :
    (push templateConst5 mk0 10 = ⟨[10], {5}⟩ ∧
      templateConst5.Hash 3 ∈ (⟨[10], {5}⟩ : DeduplicatedPriorityQueue Nat).hashmap ∧
      push templateConst5 ⟨[10], {5}⟩ 3 = ⟨[10, 3], {5}⟩ ∧
      size (push templateConst5 ⟨[10], {5}⟩ 3) = 2) ∧
    (push templateSucc mk0 4 = ⟨[4], {5}⟩ ∧
      templateSucc.Hash 5 ∉ (⟨[4], {5}⟩ : DeduplicatedPriorityQueue Nat).hashmap ∧
      push templateSucc ⟨[4], {5}⟩ 5 = ⟨[4], {5}⟩ ∧
      size (push templateSucc ⟨[4], {5}⟩ 5) = 1) := by
  decide

/-- C2 (the code evaluated where it departs from the claim).  With `Hash`
constant `5`, `e1 = 10` and `e2 = 3`: after `push(e1); push(e2)` both elements
are stored and `size()` is 2, not 1; after the following `pop()` (which removes
`10`) and `push(e2)`, `size()` is 2 again and two copies of `3` are stored. -/
theorem C2_equal_hash_elements_both_stored :
    templateConst5.Hash 10 = templateConst5.Hash 3 ∧
    run templateConst5 [Call.push 10, Call.push 3] mk0 = Outcome.value (⟨[10, 3], {5}⟩, []) ∧
    size (⟨[10, 3], {5}⟩ : DeduplicatedPriorityQueue Nat) = 2 ∧
    run templateConst5 [Call.push 10, Call.push 3, Call.pop, Call.push 3] mk0 =
      Outcome.value (⟨[3, 3], {5}⟩, [10]) ∧
    size (⟨[3, 3], {5}⟩ : DeduplicatedPriorityQueue Nat) = 2 := by
  decide

/-- C3 (the code evaluated where it departs from the claim).  With
`Hash(e) = e + 1`: after `push(2); push(1)` the top is `2`; `pop()` removes it
and its hash `3` from the recorded hashes, which are then `{2}`; a following
`push(2)`, of an element with the hash of the popped one, is dropped because
the element `2` itself is found among the recorded hashes: `2` is not stored
and `size()` stays 1. -/
theorem C3_push_after_pop_dropped :
    run templateSucc [Call.push 2, Call.push 1] mk0 = Outcome.value (⟨[2, 1], {2, 3}⟩, []) ∧
    top (⟨[2, 1], {2, 3}⟩ : DeduplicatedPriorityQueue Nat) = Outcome.value 2 ∧
    pop templateSucc ⟨[2, 1], {2, 3}⟩ = Outcome.value ⟨[1], {2}⟩ ∧
    templateSucc.Hash 2 ∉ (⟨[1], {2}⟩ : DeduplicatedPriorityQueue Nat).hashmap ∧
    push templateSucc ⟨[1], {2}⟩ 2 = ⟨[1], {2}⟩ ∧
    2 ∉ (push templateSucc ⟨[1], {2}⟩ 2).impl ∧
    size (push templateSucc ⟨[1], {2}⟩ 2) = 1 := by
  decide

/-- C4 (the code evaluated where it departs from the claim).  With `Hash`
constant `5`, after `push(10); push(3)` on a default-constructed queue two
distinct stored elements have the same hash. -/
theorem C4_two_stored_elements_same_hash :
    run templateConst5 [Call.push 10, Call.push 3] mk0 = Outcome.value (⟨[10, 3], {5}⟩, []) ∧
    (10 : Nat) ≠ 3 ∧
    templateConst5.Hash 10 = templateConst5.Hash 3 ∧
    ¬ ((⟨[10, 3], {5}⟩ : DeduplicatedPriorityQueue Nat).impl.map templateConst5.Hash).Nodup := by
  decide

/-- C5 as stated fails: with `std::less` and the identity hash, the calls
`push(1); pop(); push(5); pop()` remove `1` and then `5`, and `1` is strictly
less than `5`. -/
theorem C5_interleaving_counterexample :
    run templateId [Call.push 1, Call.pop, Call.push 5, Call.pop] mk0 =
      Outcome.value (⟨[], ∅⟩, [1, 5]) ∧
    ¬ List.Pairwise (fun a b => templateId.Compare a b = false) [1, 5] := by
  decide

/-- C5 (amended): after any sequence of calls on a default-constructed queue,
a following sequence of calls that contains no `push` removes values in
non-increasing order: no removed value is strictly less than one removed after
it. -/
theorem C5_removals_without_push_non_increasing {Elem : Type} (T : Template Elem)
    (hc : StrictWeakOrdering T.Compare) (pre cs : List (Call Elem))
    (q1 q2 : DeduplicatedPriorityQueue Elem) (out1 out2 : List Elem)
    (hpre : run T pre mk0 = Outcome.value (q1, out1))
    (hcs : ∀ c ∈ cs, c.isPush = false)
    (hrun : run T cs q1 = Outcome.value (q2, out2)) :
    out2.Pairwise (fun a b => T.Compare a b = false) := by
  have hord := run_ordered hc pre q1 out1 hpre
  rw [run_without_push T cs q1 q2 out2 hcs hrun] at hord
  exact (List.pairwise_append.mp hord).1

theorem C5_removals_without_push_non_increasing_witness :
    run templateId [Call.push 3, Call.push 7, Call.pop, Call.push 5] mk0 =
      Outcome.value (⟨[5, 3], {5, 3}⟩, [7]) ∧
    run templateId [Call.pop, Call.size, Call.pop] ⟨[5, 3], {5, 3}⟩ =
      Outcome.value (⟨[], ∅⟩, [5, 3]) ∧
    List.Pairwise (fun a b => templateId.Compare a b = false) [5, 3] :=
  ⟨by decide, by decide,
    C5_removals_without_push_non_increasing templateId strictWeakOrdering_lessNat
      [Call.push 3, Call.push 7, Call.pop, Call.push 5] [Call.pop, Call.size, Call.pop]
      ⟨[5, 3], {5, 3}⟩ ⟨[], ∅⟩ [7] [5, 3] (by decide) (by decide) (by decide)⟩

/-- C6: on a non-empty queue reached from a default-constructed one by any
sequence of calls, `top()` returns an element that is stored in the queue and
that no stored element exceeds under the comparator, and the call leaves the
object as it was (same stored elements, same size, same recorded hashes). -/
theorem C6_top_is_stored_maximum {Elem : Type} (T : Template Elem)
    (hc : StrictWeakOrdering T.Compare) (cs : List (Call Elem))
    (q : DeduplicatedPriorityQueue Elem) (out : List Elem)
    (hreach : run T cs mk0 = Outcome.value (q, out)) (hne : empty q = false) :
    ∃ t, top q = Outcome.value t ∧ call T q Call.top = Outcome.value (Ret.elem t, q) ∧
      t ∈ q.impl ∧ ∀ x ∈ q.impl, T.Compare t x = false := by
  have hord := run_ordered hc cs q out hreach
  obtain ⟨impl, hm⟩ := q
  cases impl with
  | nil => simp [empty, PriorityQueue.empty] at hne
  | cons t rest =>
    refine ⟨t, rfl, rfl, List.mem_cons_self t rest, ?_⟩
    intro x hx
    rcases List.mem_cons.mp hx with h | h
    · rw [h]
      exact hc.irrefl t
    · exact (List.pairwise_cons.mp hord).1 x h

theorem C6_top_is_stored_maximum_witness :
    ∃ t, top (⟨[7, 5, 3], {3, 7, 5}⟩ : DeduplicatedPriorityQueue Nat) = Outcome.value t ∧
      call templateId ⟨[7, 5, 3], {3, 7, 5}⟩ Call.top =
        Outcome.value (Ret.elem t, ⟨[7, 5, 3], {3, 7, 5}⟩) ∧
      t ∈ (⟨[7, 5, 3], {3, 7, 5}⟩ : DeduplicatedPriorityQueue Nat).impl ∧
      ∀ x ∈ (⟨[7, 5, 3], {3, 7, 5}⟩ : DeduplicatedPriorityQueue Nat).impl,
        templateId.Compare t x = false :=
  C6_top_is_stored_maximum templateId strictWeakOrdering_lessNat
    [Call.push 5, Call.push 7, Call.push 3] ⟨[7, 5, 3], {3, 7, 5}⟩ [] (by decide) (by decide)

/-- C7: on a non-empty queue with `t = top()`, `pop()` removes one occurrence
of `t` and nothing else: the stored elements before are `t` together with the
stored elements after (as multisets), `size()` decreases by exactly 1, and the
recorded hashes after are those before with `Hash(t)` erased. -/
theorem C7_pop_removes_top {Elem : Type} (T : Template Elem)
    (q : DeduplicatedPriorityQueue Elem) (hne : empty q = false) :
    ∃ t q1, top q = Outcome.value t ∧ pop T q = Outcome.value q1 ∧
      call T q Call.pop = Outcome.value (Ret.void, q1) ∧
      (↑q.impl : Multiset Elem) = t ::ₘ (↑q1.impl : Multiset Elem) ∧
      size q1 + 1 = size q ∧
      q1.hashmap = q.hashmap.erase (T.Hash t) := by
  obtain ⟨impl, hm⟩ := q
  cases impl with
  | nil => simp [empty, PriorityQueue.empty] at hne
  | cons t rest =>
    exact ⟨t, ⟨rest, hm.erase (T.Hash t)⟩, rfl, rfl, rfl, rfl, rfl, rfl⟩

theorem C7_pop_removes_top_witness :
    ∃ t q1, top (⟨[7, 5, 3], {3, 7, 5}⟩ : DeduplicatedPriorityQueue Nat) = Outcome.value t ∧
      pop templateId ⟨[7, 5, 3], {3, 7, 5}⟩ = Outcome.value q1 ∧
      call templateId ⟨[7, 5, 3], {3, 7, 5}⟩ Call.pop = Outcome.value (Ret.void, q1) ∧
      (↑(⟨[7, 5, 3], {3, 7, 5}⟩ : DeduplicatedPriorityQueue Nat).impl : Multiset Nat) =
        t ::ₘ (↑q1.impl : Multiset Nat) ∧
      size q1 + 1 = size (⟨[7, 5, 3], {3, 7, 5}⟩ : DeduplicatedPriorityQueue Nat) ∧
      q1.hashmap =
        (⟨[7, 5, 3], {3, 7, 5}⟩ : DeduplicatedPriorityQueue Nat).hashmap.erase (templateId.Hash t) :=
  C7_pop_removes_top templateId ⟨[7, 5, 3], {3, 7, 5}⟩ (by decide)

/-- C10 as stated fails: on a default-constructed (empty) queue neither `top()`
nor `pop()` throws; both run into the undefined behaviour of the empty
standard container. -/
theorem C10_empty_queue_raises_nothing :
    empty (mk0 : DeduplicatedPriorityQueue Nat) = true ∧
    top (mk0 : DeduplicatedPriorityQueue Nat) = Outcome.undefined ∧
    pop templateId mk0 = Outcome.undefined ∧
    (top (mk0 : DeduplicatedPriorityQueue Nat)).isRaised = false ∧
    (pop templateId mk0).isRaised = false := by
  decide

/-- C10 (amended): on an empty queue `top()` and `pop()` make no emptiness
check and throw nothing; each forwards to the underlying priority queue, whose
behaviour on an empty container is undefined, so that the call has no defined
result and no defined resulting object. -/
theorem C10_empty_queue_undefined {Elem : Type} (T : Template Elem)
    (q : DeduplicatedPriorityQueue Elem) (he : empty q = true) :
    top q = Outcome.undefined ∧ pop T q = Outcome.undefined ∧
      call T q Call.top = Outcome.undefined ∧ call T q Call.pop = Outcome.undefined := by
  obtain ⟨impl, hm⟩ := q
  cases impl with
  | nil => exact ⟨rfl, rfl, rfl, rfl⟩
  | cons t rest => simp [empty, PriorityQueue.empty] at he

theorem C10_empty_queue_undefined_witness :
    top (⟨[], {5}⟩ : DeduplicatedPriorityQueue Nat) = Outcome.undefined ∧
      pop templateConst5 ⟨[], {5}⟩ = Outcome.undefined ∧
      call templateConst5 ⟨[], {5}⟩ Call.top = Outcome.undefined ∧
      call templateConst5 ⟨[], {5}⟩ Call.pop = Outcome.undefined :=
  C10_empty_queue_undefined templateConst5 ⟨[], {5}⟩ (by decide)

end DeduplicatedPriorityQueue

/-! ## The edge-query builder -/

namespace utils

namespace MultiDiEdgeQuery

/-- C8: each plural setter throws exactly when its own member is already
engaged, whatever set is passed and whatever the other members hold, and
returns normally exactly when it is not; in particular
`q.with_src_nodes(A).with_src_nodes(B)` throws for every `q`, `A`, `B` and
never returns a query. -/
theorem C8_setter_throws_iff_engaged (q : MultiDiEdgeQuery) :
    (∀ S, ((with_src_nodes q S).isRaised = true ↔ q.srcs ≠ none) ∧
      ((with_src_nodes q S).isValue = true ↔ q.srcs = none)) ∧
    (∀ S, ((with_dst_nodes q S).isRaised = true ↔ q.dsts ≠ none) ∧
      ((with_dst_nodes q S).isValue = true ↔ q.dsts = none)) ∧
    (∀ S, ((with_src_idxs q S).isRaised = true ↔ q.srcIdxs ≠ none) ∧
      ((with_src_idxs q S).isValue = true ↔ q.srcIdxs = none)) ∧
    (∀ S, ((with_dst_idxs q S).isRaised = true ↔ q.dstIdxs ≠ none) ∧
      ((with_dst_idxs q S).isValue = true ↔ q.dstIdxs = none)) ∧
    (∀ A B, ((with_src_nodes q A).bind fun e => with_src_nodes e B).isRaised = true ∧
      ∀ r, ((with_src_nodes q A).bind fun e => with_src_nodes e B) ≠ Outcome.value r) := by
  obtain ⟨srcs, dsts, srcIdxs, dstIdxs⟩ := q
  refine ⟨?_, ?_, ?_, ?_, ?_⟩
  · intro S
    cases srcs <;> simp [with_src_nodes, Outcome.isRaised, Outcome.isValue]
  · intro S
    cases dsts <;> simp [with_dst_nodes, Outcome.isRaised, Outcome.isValue]
  · intro S
    cases srcIdxs <;> simp [with_src_idxs, Outcome.isRaised, Outcome.isValue]
  · intro S
    cases dstIdxs <;> simp [with_dst_idxs, Outcome.isRaised, Outcome.isValue]
  · intro A B
    cases srcs <;> simp [with_src_nodes, Outcome.isRaised, Outcome.bind]

/-- C9: a plural setter applied to a query whose named member is not engaged
returns a query whose named member holds exactly the set passed and whose
other three members are those of the receiver; the number of engaged members
grows by exactly one. -/
theorem C9_setter_engages_named_member_only (q : MultiDiEdgeQuery) (N : Finset Node)
    (I : Finset Nat) :
    (q.srcs = none → ∃ r, with_src_nodes q N = Outcome.value r ∧ r.srcs = some N ∧
      r.dsts = q.dsts ∧ r.srcIdxs = q.srcIdxs ∧ r.dstIdxs = q.dstIdxs ∧
      populated r = populated q + 1) ∧
    (q.dsts = none → ∃ r, with_dst_nodes q N = Outcome.value r ∧ r.dsts = some N ∧
      r.srcs = q.srcs ∧ r.srcIdxs = q.srcIdxs ∧ r.dstIdxs = q.dstIdxs ∧
      populated r = populated q + 1) ∧
    (q.srcIdxs = none → ∃ r, with_src_idxs q I = Outcome.value r ∧ r.srcIdxs = some I ∧
      r.srcs = q.srcs ∧ r.dsts = q.dsts ∧ r.dstIdxs = q.dstIdxs ∧
      populated r = populated q + 1) ∧
    (q.dstIdxs = none → ∃ r, with_dst_idxs q I = Outcome.value r ∧ r.dstIdxs = some I ∧
      r.srcs = q.srcs ∧ r.dsts = q.dsts ∧ r.srcIdxs = q.srcIdxs ∧
      populated r = populated q + 1) := by
  obtain ⟨srcs, dsts, srcIdxs, dstIdxs⟩ := q
  refine ⟨?_, ?_, ?_, ?_⟩
  · intro h
    simp only at h
    subst h
    refine ⟨_, rfl, rfl, rfl, rfl, rfl, ?_⟩
    simp only [populated, Option.isSome_some, Option.isSome_none, if_true]
    simp only [Bool.false_eq_true, if_false]
    omega
  · intro h
    simp only at h
    subst h
    refine ⟨_, rfl, rfl, rfl, rfl, rfl, ?_⟩
    simp only [populated, Option.isSome_some, Option.isSome_none, if_true]
    simp only [Bool.false_eq_true, if_false]
    omega
  · intro h
    simp only at h
    subst h
    refine ⟨_, rfl, rfl, rfl, rfl, rfl, ?_⟩
    simp only [populated, Option.isSome_some, Option.isSome_none, if_true]
    simp only [Bool.false_eq_true, if_false]
    omega
  · intro h
    simp only at h
    subst h
    refine ⟨_, rfl, rfl, rfl, rfl, rfl, ?_⟩
    simp only [populated, Option.isSome_some, Option.isSome_none, if_true]
    simp only [Bool.false_eq_true, if_false]

theorem C9_setter_engages_named_member_only_witness :
    (∃ r, with_src_nodes ⟨none, none, none, some {0}⟩ {⟨1⟩, ⟨2⟩} = Outcome.value r ∧
      r.srcs = some {⟨1⟩, ⟨2⟩} ∧ r.dsts = none ∧ r.srcIdxs = none ∧ r.dstIdxs = some {0} ∧
      populated r = 2) ∧
    (∃ r, with_dst_nodes ⟨none, none, none, some {0}⟩ {⟨1⟩, ⟨2⟩} = Outcome.value r ∧
      r.dsts = some {⟨1⟩, ⟨2⟩} ∧ r.srcs = none ∧ r.srcIdxs = none ∧ r.dstIdxs = some {0} ∧
      populated r = 2) ∧
    (∃ r, with_src_idxs ⟨none, none, none, some {0}⟩ {4} = Outcome.value r ∧
      r.srcIdxs = some {4} ∧ r.srcs = none ∧ r.dsts = none ∧ r.dstIdxs = some {0} ∧
      populated r = 2) ∧
    (∃ r, with_dst_idxs all {4} = Outcome.value r ∧
      r.dstIdxs = some {4} ∧ r.srcs = none ∧ r.dsts = none ∧ r.srcIdxs = none ∧
      populated r = 1) :=
  ⟨(C9_setter_engages_named_member_only ⟨none, none, none, some {0}⟩ {⟨1⟩, ⟨2⟩} {4}).1 rfl,
    (C9_setter_engages_named_member_only ⟨none, none, none, some {0}⟩ {⟨1⟩, ⟨2⟩} {4}).2.1 rfl,
    (C9_setter_engages_named_member_only ⟨none, none, none, some {0}⟩ {⟨1⟩, ⟨2⟩} {4}).2.2.1 rfl,
    (C9_setter_engages_named_member_only all {⟨1⟩, ⟨2⟩} {4}).2.2.2 rfl⟩

/-- C11: each singular setter has the outcome (the returned query, or the
exception with its message) of the plural setter of the same member applied to
the one-element set. -/
theorem C11_singular_setter_is_plural_on_singleton (q : MultiDiEdgeQuery) (n : Node) (i : Nat) :
    with_src_node q n = with_src_nodes q {n} ∧
    with_dst_node q n = with_dst_nodes q {n} ∧
    with_src_idx q i = with_src_idxs q {i} ∧
    with_dst_idx q i = with_dst_idxs q {i} :=
  ⟨rfl, rfl, rfl, rfl⟩

/-- C12: `all()` has all four members unset, every edge passes its edge test,
and each of the eight setters returns normally when applied to it. -/
theorem C12_all_is_unrestricted :
    all.srcs = none ∧ all.dsts = none ∧ all.srcIdxs = none ∧ all.dstIdxs = none ∧
    (∀ e, satisfies all e = true) ∧
    (∀ (N : Finset Node) (I : Finset Nat) (n : Node) (i : Nat),
      (with_src_nodes all N).isValue = true ∧ (with_dst_nodes all N).isValue = true ∧
      (with_src_idxs all I).isValue = true ∧ (with_dst_idxs all I).isValue = true ∧
      (with_src_node all n).isValue = true ∧ (with_dst_node all n).isValue = true ∧
      (with_src_idx all i).isValue = true ∧ (with_dst_idx all i).isValue = true) := by
  refine ⟨rfl, rfl, rfl, rfl, fun e => rfl, fun N I n i => ?_⟩
  exact ⟨rfl, rfl, rfl, rfl, rfl, rfl, rfl, rfl⟩

end MultiDiEdgeQuery

/-! ## Edges -/

namespace MultiDiEdge

theorem node_step {nodeLt : Node → Node → Bool} (hN : StrictTotalOrdering nodeLt)
    (x y : Node) (P : Prop) :
    (nodeLt x y = true ∨ (nodeLt y x = false ∧ P)) ↔ (nodeLt x y = true ∨ (x = y ∧ P)) := by
  by_cases hxy : x = y
  · subst hxy
    simp [hN.irrefl]
  · have hasym : nodeLt x y = true → nodeLt y x = false := by
      intro h
      by_contra h1
      have h2 : nodeLt y x = true := by simpa using h1
      have := hN.trans x y x h h2
      rw [hN.irrefl] at this
      exact Bool.noConfusion this
    rcases hN.total x y hxy with h | h
    · simp [h]
    · have h3 : nodeLt x y = false := by
        by_contra h1
        have h2 : nodeLt x y = true := by simpa using h1
        rw [hasym h2] at h
        exact Bool.noConfusion h
      simp [h, h3, hxy]

theorem eq_iff (a b : MultiDiEdge) :
    a.eq b = true ↔
      a.src = b.src ∧ a.dst = b.dst ∧ a.srcIdx = b.srcIdx ∧ a.dstIdx = b.dstIdx := by
  simp [eq, tuple_eq, as_tuple, and_assoc]

theorem lt_iff {nodeLt : Node → Node → Bool} (hN : StrictTotalOrdering nodeLt)
    (a b : MultiDiEdge) : a.lt nodeLt b = true ↔ lexLess nodeLt a b := by
  simp only [lt, tuple_lt, as_tuple, lexLess, Bool.or_eq_true, Bool.and_eq_true,
    Bool.not_eq_true', decide_eq_true_eq, decide_eq_false_iff_not, Bool.and_false,
    Bool.or_false, Bool.false_eq_true, or_false, and_false]
  rw [node_step hN a.src b.src, node_step hN a.dst b.dst]
  have : (a.srcIdx < b.srcIdx ∨ ¬b.srcIdx < a.srcIdx ∧ a.dstIdx < b.dstIdx) ↔
      (a.srcIdx < b.srcIdx ∨ a.srcIdx = b.srcIdx ∧ a.dstIdx < b.dstIdx) := by
    omega
  rw [this]

theorem node_trichotomy {nodeLt : Node → Node → Bool} (hN : StrictTotalOrdering nodeLt)
    (x y : Node) :
    (x = y ∧ nodeLt x y = false ∧ nodeLt y x = false) ∨
      (x ≠ y ∧ nodeLt x y = true ∧ nodeLt y x = false) ∨
      (x ≠ y ∧ nodeLt x y = false ∧ nodeLt y x = true) := by
  have hasym : ∀ u v, nodeLt u v = true → nodeLt v u = false := by
    intro u v h
    by_contra h1
    have h2 : nodeLt v u = true := by simpa using h1
    have := hN.trans u v u h h2
    rw [hN.irrefl] at this
    exact Bool.noConfusion this
  by_cases hxy : x = y
  · subst hxy
    exact Or.inl ⟨rfl, hN.irrefl x, hN.irrefl x⟩
  · rcases hN.total x y hxy with h | h
    · exact Or.inr (Or.inl ⟨hxy, h, hasym x y h⟩)
    · exact Or.inr (Or.inr ⟨hxy, hasym y x h, h⟩)

/-- The comparison of nodes by their member `idx`, used in the examples. -/
theorem strictTotalOrdering_idx :
    StrictTotalOrdering (fun a b : Node => decide (a.idx < b.idx)) := by
  refine ⟨?_, ?_, ?_⟩
  · intro a
    simp
  · intro a b c
    simp only [decide_eq_true_eq]
    omega
  · intro a b hab
    simp only [decide_eq_true_eq]
    have : a.idx ≠ b.idx := by
      intro h
      apply hab
      cases a
      cases b
      simpa using h
    omega

/-- C13: `a == b` holds exactly when the two edges agree on all four members;
`a < b` holds exactly when the tuple of `a` is lexicographically smaller than
that of `b` (source, then destination, then source slot, then destination
slot); and exactly one of `a < b`, `a == b`, `b < a` holds. -/
theorem C13_edge_equality_and_order {nodeLt : Node → Node → Bool}
    (hN : StrictTotalOrdering nodeLt) (a b : MultiDiEdge) :
    (a.eq b = true ↔
      a.src = b.src ∧ a.dst = b.dst ∧ a.srcIdx = b.srcIdx ∧ a.dstIdx = b.dstIdx) ∧
    (a.lt nodeLt b = true ↔ lexLess nodeLt a b) ∧
    ((a.lt nodeLt b = true ∧ a.eq b = false ∧ b.lt nodeLt a = false) ∨
      (a.lt nodeLt b = false ∧ a.eq b = true ∧ b.lt nodeLt a = false) ∨
      (a.lt nodeLt b = false ∧ a.eq b = false ∧ b.lt nodeLt a = true)) := by
  refine ⟨eq_iff a b, lt_iff hN a b, ?_⟩
  obtain ⟨s1, d1, i1, j1⟩ := a
  obtain ⟨s2, d2, i2, j2⟩ := b
  have hl := lt_iff hN ⟨s1, d1, i1, j1⟩ ⟨s2, d2, i2, j2⟩
  have hg := lt_iff hN ⟨s2, d2, i2, j2⟩ ⟨s1, d1, i1, j1⟩
  have he := eq_iff ⟨s1, d1, i1, j1⟩ ⟨s2, d2, i2, j2⟩
  simp only [lexLess] at hl hg he
  simp only [← Bool.not_eq_true, hl, hg, he, @eq_comm _ s2 s1, @eq_comm _ d2 d1,
    @eq_comm _ i2 i1]
  rcases node_trichotomy hN s1 s2 with ⟨rfl, h2, -⟩ | ⟨h1, h2, h3⟩ | ⟨h1, h2, h3⟩ <;>
    rcases node_trichotomy hN d1 d2 with ⟨rfl, k2, -⟩ | ⟨k1, k2, k3⟩ | ⟨k1, k2, k3⟩ <;>
    (simp only [*, Bool.false_eq_true, false_or, true_or, or_true,
      true_and, false_and, and_false, and_true, not_true_eq_false, not_false_eq_true,
      or_false, or_self, and_self, ne_eq]
     try omega)

theorem C13_edge_equality_and_order_witness :
    (MultiDiEdge.eq ⟨⟨0⟩, ⟨1⟩, 1, 0⟩ ⟨⟨0⟩, ⟨1⟩, 0, 5⟩ = true ↔
      (⟨0⟩ : Node) = ⟨0⟩ ∧ (⟨1⟩ : Node) = ⟨1⟩ ∧ 1 = 0 ∧ 0 = 5) ∧
    (MultiDiEdge.lt (fun a b : Node => decide (a.idx < b.idx))
        ⟨⟨0⟩, ⟨1⟩, 1, 0⟩ ⟨⟨0⟩, ⟨1⟩, 0, 5⟩ = true ↔
      lexLess (fun a b : Node => decide (a.idx < b.idx)) ⟨⟨0⟩, ⟨1⟩, 1, 0⟩ ⟨⟨0⟩, ⟨1⟩, 0, 5⟩) ∧
    ((MultiDiEdge.lt (fun a b : Node => decide (a.idx < b.idx))
          ⟨⟨0⟩, ⟨1⟩, 1, 0⟩ ⟨⟨0⟩, ⟨1⟩, 0, 5⟩ = true ∧
        MultiDiEdge.eq ⟨⟨0⟩, ⟨1⟩, 1, 0⟩ ⟨⟨0⟩, ⟨1⟩, 0, 5⟩ = false ∧
        MultiDiEdge.lt (fun a b : Node => decide (a.idx < b.idx))
          ⟨⟨0⟩, ⟨1⟩, 0, 5⟩ ⟨⟨0⟩, ⟨1⟩, 1, 0⟩ = false) ∨
      (MultiDiEdge.lt (fun a b : Node => decide (a.idx < b.idx))
          ⟨⟨0⟩, ⟨1⟩, 1, 0⟩ ⟨⟨0⟩, ⟨1⟩, 0, 5⟩ = false ∧
        MultiDiEdge.eq ⟨⟨0⟩, ⟨1⟩, 1, 0⟩ ⟨⟨0⟩, ⟨1⟩, 0, 5⟩ = true ∧
        MultiDiEdge.lt (fun a b : Node => decide (a.idx < b.idx))
          ⟨⟨0⟩, ⟨1⟩, 0, 5⟩ ⟨⟨0⟩, ⟨1⟩, 1, 0⟩ = false) ∨
      (MultiDiEdge.lt (fun a b : Node => decide (a.idx < b.idx))
          ⟨⟨0⟩, ⟨1⟩, 1, 0⟩ ⟨⟨0⟩, ⟨1⟩, 0, 5⟩ = false ∧
        MultiDiEdge.eq ⟨⟨0⟩, ⟨1⟩, 1, 0⟩ ⟨⟨0⟩, ⟨1⟩, 0, 5⟩ = false ∧
        MultiDiEdge.lt (fun a b : Node => decide (a.idx < b.idx))
          ⟨⟨0⟩, ⟨1⟩, 0, 5⟩ ⟨⟨0⟩, ⟨1⟩, 1, 0⟩ = true)) :=
  C13_edge_equality_and_order strictTotalOrdering_idx ⟨⟨0⟩, ⟨1⟩, 1, 0⟩ ⟨⟨0⟩, ⟨1⟩, 0, 5⟩

/-- C14: the hash of an edge is a function of its tuple `(src, dst, srcIdx,
dstIdx)`: edges with equal tuples have equal hashes, and in particular
`a == b` implies `hash(a) = hash(b)`. -/
theorem C14_hash_consistent_with_equality (get_std_hash : AsConstTuple → Nat)
    (a b : MultiDiEdge) :
    (a.eq b = true → hash get_std_hash a = hash get_std_hash b) ∧
    (a.as_tuple = b.as_tuple → hash get_std_hash a = hash get_std_hash b) := by
  constructor
  · intro h
    obtain ⟨h1, h2, h3, h4⟩ := (eq_iff a b).mp h
    simp only [hash, as_tuple, h1, h2, h3, h4]
  · intro h
    simp only [hash, h]

theorem C14_hash_consistent_with_equality_witness :
    hash (fun t => t.1.idx + 31 * (t.2.1.idx + 31 * (t.2.2.1 + 31 * t.2.2.2)))
        ⟨⟨0⟩, ⟨1⟩, 2, 3⟩ =
      hash (fun t => t.1.idx + 31 * (t.2.1.idx + 31 * (t.2.2.1 + 31 * t.2.2.2)))
        ⟨⟨0⟩, ⟨1⟩, 2, 3⟩ ∧
    hash (fun t => t.1.idx + 31 * (t.2.1.idx + 31 * (t.2.2.1 + 31 * t.2.2.2)))
        ⟨⟨0⟩, ⟨1⟩, 2, 3⟩ = 91326 :=
  ⟨(C14_hash_consistent_with_equality _ ⟨⟨0⟩, ⟨1⟩, 2, 3⟩ ⟨⟨0⟩, ⟨1⟩, 2, 3⟩).1 (by decide),
    by decide⟩

end MultiDiEdge

/-! ## Graph construction and edge queries -/

theorem add_nodes_succ {G : Type} (ops : GraphType G) :
    ∀ (n : Nat) (g : G) (acc : List Node),
      add_nodes ops (n + 1) g acc =
        ((add_nodes ops n g acc).1 ++ [(ops.add_node (add_nodes ops n g acc).2).1],
          (ops.add_node (add_nodes ops n g acc).2).2) := by
  intro n
  induction n with
  | zero =>
    intro g acc
    rfl
  | succ n ih =>
    intro g acc
    conv_lhs => rw [add_nodes, ih]
    rfl

theorem add_nodes_spec {G : Type} (ops : GraphType G) (hc : GraphContract ops) (g : G)
    (acc : List Node) (hacc : acc.Nodup) (hg : ops.nodes g = acc.toFinset) :
    ∀ n : Nat, (add_nodes ops n g acc).1.length = acc.length + n ∧
      (add_nodes ops n g acc).1.Nodup ∧
      ops.nodes (add_nodes ops n g acc).2 = (add_nodes ops n g acc).1.toFinset ∧
      ops.edges (add_nodes ops n g acc).2 = ops.edges g := by
  intro n
  induction n with
  | zero => exact ⟨rfl, hacc, hg, rfl⟩
  | succ n ih =>
    obtain ⟨h1, h2, h3, h4⟩ := ih
    rw [add_nodes_succ]
    refine ⟨?_, ?_, ?_, ?_⟩
    · simp only [List.length_append, List.length_singleton, h1]
      omega
    · have hfresh := hc.add_node_fresh (add_nodes ops n g acc).2
      rw [h3, List.mem_toFinset] at hfresh
      refine List.Nodup.append h2 (List.nodup_singleton _) ?_
      intro x hx hx1
      rw [List.mem_singleton] at hx1
      rw [hx1] at hx
      exact hfresh hx
    · simp only [hc.add_node_nodes, h3]
      ext x
      simp only [Finset.mem_insert, List.mem_toFinset, List.mem_append, List.mem_singleton]
      tauto
    · simp only [hc.add_node_edges, h4]

theorem foldl_add_edge_spec {G : Type} (ops : GraphType G) (hc : GraphContract ops) :
    ∀ (es : List MultiDiEdge) (g : G),
      ops.nodes (es.foldl ops.add_edge g) = ops.nodes g ∧
        ops.edges (es.foldl ops.add_edge g) = ops.edges g ∪ es.toFinset := by
  intro es
  induction es with
  | nil =>
    intro g
    simp
  | cons e es ih =>
    intro g
    obtain ⟨h1, h2⟩ := ih (ops.add_edge g e)
    simp only [List.foldl_cons, h1, h2, hc.add_edge_nodes, hc.add_edge_edges]
    refine ⟨trivial, ?_⟩
    ext x
    simp only [Finset.mem_union, Finset.mem_insert, List.toFinset_cons]
    tauto

theorem idx_le_foldr_max (l : List Node) (x : Node) (hx : x ∈ l) :
    x.idx ≤ (l.map Node.idx).foldr max 0 := by
  induction l with
  | nil => simp at hx
  | cons y ys ih =>
    simp only [List.map_cons, List.foldr_cons]
    rcases List.mem_cons.mp hx with h | h
    · rw [h]
      exact Nat.le_max_left _ _
    · exact Nat.le_trans (ih h) (Nat.le_max_right _ _)

theorem graphContract_listGraph : GraphContract listGraph := by
  refine ⟨rfl, rfl, ?_, ?_, fun g => rfl, fun g e => rfl, fun g e => rfl⟩
  · intro g hmem
    have h1 := idx_le_foldr_max g.nodeList g.fresh (List.mem_toFinset.mp hmem)
    simp only [ListGraph.fresh] at h1
    omega
  · intro g
    ext x
    simp only [listGraph, Finset.mem_insert, List.mem_toFinset, List.mem_append,
      List.mem_singleton]
    tauto

/-- C15: for a graph type that meets the graph contract,
`make_multidigraph<G>(num_nodes, edges)` passes to `edges` the vector of the
nodes returned by its `add_node` calls, in the order of the calls (each call
appends the node it returns); that vector has length `num_nodes` and no
repetition; `edges` is applied to it once and every edge it returns is added;
the returned graph has exactly those `num_nodes` nodes and exactly the edges
returned by `edges`. -/
theorem C15_make_multidigraph_builds_graph {G : Type} (ops : GraphType G)
    (hc : GraphContract ops) (num_nodes : Nat) (edges : List Node → List MultiDiEdge) :
    (created_nodes ops num_nodes).length = num_nodes ∧
    (created_nodes ops num_nodes).Nodup ∧
    (∀ k, created_nodes ops (k + 1) =
      created_nodes ops k ++ [(ops.add_node (add_nodes ops k ops.default []).2).1]) ∧
    make_multidigraph ops num_nodes edges =
      (edges (created_nodes ops num_nodes)).foldl ops.add_edge
        (add_nodes ops num_nodes ops.default []).2 ∧
    ops.nodes (make_multidigraph ops num_nodes edges) = (created_nodes ops num_nodes).toFinset ∧
    (ops.nodes (make_multidigraph ops num_nodes edges)).card = num_nodes ∧
    ops.edges (make_multidigraph ops num_nodes edges) =
      (edges (created_nodes ops num_nodes)).toFinset := by
  have hdef : ops.nodes ops.default = ([] : List Node).toFinset := by
    rw [hc.default_nodes]
    rfl
  obtain ⟨h1, h2, h3, h4⟩ := add_nodes_spec ops hc ops.default [] List.nodup_nil hdef num_nodes
  obtain ⟨h5, h6⟩ := foldl_add_edge_spec ops hc (edges (created_nodes ops num_nodes))
    (add_nodes ops num_nodes ops.default []).2
  have hlen : (created_nodes ops num_nodes).length = num_nodes := by
    simpa [created_nodes] using h1
  have hnodes : ops.nodes (make_multidigraph ops num_nodes edges) =
      (created_nodes ops num_nodes).toFinset := by
    simp only [make_multidigraph, created_nodes] at h5 ⊢
    rw [h5, h3]
  refine ⟨hlen, h2, ?_, rfl, hnodes, ?_, ?_⟩
  · intro k
    simp only [created_nodes, add_nodes_succ]
  · rw [hnodes, List.toFinset_card_of_nodup (show (created_nodes ops num_nodes).Nodup from h2),
      hlen]
  · simp only [make_multidigraph, created_nodes] at h6 ⊢
    rw [h6, h4, hc.default_edges, Finset.empty_union]

theorem C15_make_multidigraph_builds_graph_witness :
    (created_nodes listGraph 2).length = 2 ∧
    (created_nodes listGraph 2).Nodup ∧
    (∀ k, created_nodes listGraph (k + 1) =
      created_nodes listGraph k ++
        [(listGraph.add_node (add_nodes listGraph k listGraph.default []).2).1]) ∧
    make_multidigraph listGraph 2 (fun ns => ns.map fun n => ⟨n, n, 0, 1⟩) =
      ((fun ns : List Node => ns.map fun n => (⟨n, n, 0, 1⟩ : MultiDiEdge))
          (created_nodes listGraph 2)).foldl listGraph.add_edge
        (add_nodes listGraph 2 listGraph.default []).2 ∧
    listGraph.nodes (make_multidigraph listGraph 2 (fun ns => ns.map fun n => ⟨n, n, 0, 1⟩)) =
      (created_nodes listGraph 2).toFinset ∧
    (listGraph.nodes
      (make_multidigraph listGraph 2 (fun ns => ns.map fun n => ⟨n, n, 0, 1⟩))).card = 2 ∧
    listGraph.edges (make_multidigraph listGraph 2 (fun ns => ns.map fun n => ⟨n, n, 0, 1⟩)) =
      ((fun ns : List Node => ns.map fun n => (⟨n, n, 0, 1⟩ : MultiDiEdge))
        (created_nodes listGraph 2)).toFinset :=
  C15_make_multidigraph_builds_graph listGraph graphContract_listGraph 2
    (fun ns => ns.map fun n => ⟨n, n, 0, 1⟩)

/-- C16: an edge is in `query_edges(q)` exactly when it is an edge of the graph
and lies in the candidate set of every engaged member of `q` (an unset member
imposes nothing); `query_edges(all())` is the whole edge set. -/
theorem C16_query_edges_filters_by_engaged_members (edges : Finset MultiDiEdge)
    (q : MultiDiEdgeQuery) (e : MultiDiEdge) :
    (e ∈ query_edges edges q ↔
      e ∈ edges ∧ (∀ S, q.srcs = some S → e.src ∈ S) ∧ (∀ S, q.dsts = some S → e.dst ∈ S) ∧
        (∀ S, q.srcIdxs = some S → e.srcIdx ∈ S) ∧ (∀ S, q.dstIdxs = some S → e.dstIdx ∈ S)) ∧
    query_edges edges MultiDiEdgeQuery.all = edges := by
  constructor
  · obtain ⟨srcs, dsts, srcIdxs, dstIdxs⟩ := q
    cases srcs <;> cases dsts <;> cases srcIdxs <;> cases dstIdxs <;>
      simp [query_edges, MultiDiEdgeQuery.satisfies, and_assoc]
  · ext x
    simp [query_edges, MultiDiEdgeQuery.satisfies, MultiDiEdgeQuery.all]

theorem C16_query_edges_filters_by_engaged_members_witness :
    (⟨⟨0⟩, ⟨1⟩, 1, 0⟩ : MultiDiEdge) ∈ query_edges exampleEdges exampleQuery ∧
    query_edges exampleEdges MultiDiEdgeQuery.all = exampleEdges := by
  have h := C16_query_edges_filters_by_engaged_members exampleEdges exampleQuery
    ⟨⟨0⟩, ⟨1⟩, 1, 0⟩
  refine ⟨h.1.mpr ⟨by decide, ?_, ?_, ?_, ?_⟩, h.2⟩
  · intro S hS
    simp only [exampleQuery, Option.some.injEq] at hS
    subst hS
    decide
  · intro S hS
    simp [exampleQuery] at hS
  · intro S hS
    simp [exampleQuery] at hS
  · intro S hS
    simp only [exampleQuery, Option.some.injEq] at hS
    subst hS
    decide

/-! ## Chains of setters -/

namespace MultiDiEdgeQuery

theorem option_eq_of_some_iff {α : Type} (a b : Option α)
    (h : ∀ x, a = some x ↔ b = some x) : a = b := by
  cases a with
  | none =>
    cases b with
    | none => rfl
    | some y => exact ((h y).mpr rfl)
  | some x => exact ((h x).mp rfl).symm

/-- The effect of one setter call: it throws when the member it names is
engaged; otherwise it returns a query in which that member is engaged with
the set passed and the other members are those of the receiver. -/
theorem apply_cases (q : MultiDiEdgeQuery) (s : Setter) :
    (engaged q s.dim = true ∧ ∃ w, s.apply q = Outcome.raised w) ∨
      (engaged q s.dim = false ∧ ∃ q1, s.apply q = Outcome.value q1 ∧
        (∀ d, engaged q1 d = (decide (d = s.dim) || engaged q d)) ∧
        (∀ S, q1.srcs = some S ↔ (q.srcs = some S ∨ s = Setter.src_nodes S)) ∧
        (∀ S, q1.dsts = some S ↔ (q.dsts = some S ∨ s = Setter.dst_nodes S)) ∧
        (∀ S, q1.srcIdxs = some S ↔ (q.srcIdxs = some S ∨ s = Setter.src_idxs S)) ∧
        (∀ S, q1.dstIdxs = some S ↔ (q.dstIdxs = some S ∨ s = Setter.dst_idxs S))) := by
  obtain ⟨srcs, dsts, srcIdxs, dstIdxs⟩ := q
  cases s with
  | src_nodes N =>
    cases srcs with
    | some S0 => exact Or.inl ⟨rfl, _, rfl⟩
    | none =>
      refine Or.inr ⟨rfl, _, rfl, ?_, ?_, ?_, ?_, ?_⟩
      · intro d
        cases d <;> simp [engaged, Setter.dim]
      all_goals
        intro S
        simp [eq_comm]
  | dst_nodes N =>
    cases dsts with
    | some S0 => exact Or.inl ⟨rfl, _, rfl⟩
    | none =>
      refine Or.inr ⟨rfl, _, rfl, ?_, ?_, ?_, ?_, ?_⟩
      · intro d
        cases d <;> simp [engaged, Setter.dim]
      all_goals
        intro S
        simp [eq_comm]
  | src_idxs N =>
    cases srcIdxs with
    | some S0 => exact Or.inl ⟨rfl, _, rfl⟩
    | none =>
      refine Or.inr ⟨rfl, _, rfl, ?_, ?_, ?_, ?_, ?_⟩
      · intro d
        cases d <;> simp [engaged, Setter.dim]
      all_goals
        intro S
        simp [eq_comm]
  | dst_idxs N =>
    cases dstIdxs with
    | some S0 => exact Or.inl ⟨rfl, _, rfl⟩
    | none =>
      refine Or.inr ⟨rfl, _, rfl, ?_, ?_, ?_, ?_, ?_⟩
      · intro d
        cases d <;> simp [engaged, Setter.dim]
      all_goals
        intro S
        simp [eq_comm]

theorem chain_cons_raised (q : MultiDiEdgeQuery) (s : Setter) (ss : List Setter) (w : String)
    (h : s.apply q = Outcome.raised w) : chain (s :: ss) q = Outcome.raised w := by
  simp only [chain, h, Outcome.bind]

theorem chain_cons_value (q q1 : MultiDiEdgeQuery) (s : Setter) (ss : List Setter)
    (h : s.apply q = Outcome.value q1) : chain (s :: ss) q = chain ss q1 := by
  simp only [chain, h, Outcome.bind]

theorem chain_value_or_raised :
    ∀ (ss : List Setter) (q : MultiDiEdgeQuery),
      (chain ss q).isValue = true ∨ (chain ss q).isRaised = true := by
  intro ss
  induction ss with
  | nil =>
    intro q
    exact Or.inl rfl
  | cons s ss ih =>
    intro q
    rcases apply_cases q s with ⟨-, w, hw⟩ | ⟨-, q1, hq1, -⟩
    · rw [chain_cons_raised q s ss w hw]
      exact Or.inr rfl
    · rw [chain_cons_value q q1 s ss hq1]
      exact ih q1

theorem chain_isValue_iff :
    ∀ (ss : List Setter) (q : MultiDiEdgeQuery),
      (chain ss q).isValue = true ↔
        (ss.map Setter.dim).Nodup ∧ ∀ s ∈ ss, engaged q s.dim = false := by
  intro ss
  induction ss with
  | nil =>
    intro q
    simp [chain, Outcome.isValue]
  | cons s ss ih =>
    intro q
    rcases apply_cases q s with ⟨he, w, hw⟩ | ⟨he, q1, hq1, hd, -⟩
    · rw [chain_cons_raised q s ss w hw]
      constructor
      · intro h
        exact Bool.noConfusion h
      · rintro ⟨-, h⟩
        have := h s (List.mem_cons_self s ss)
        rw [he] at this
        exact Bool.noConfusion this
    · rw [chain_cons_value q q1 s ss hq1, ih q1]
      simp only [List.map_cons, List.nodup_cons, List.mem_map, List.mem_cons, hd,
        Bool.or_eq_false_iff, decide_eq_false_iff_not]
      constructor
      · rintro ⟨hnd, h⟩
        refine ⟨⟨?_, hnd⟩, ?_⟩
        · rintro ⟨s1, hs1, hdim⟩
          exact (h s1 hs1).1 hdim
        · rintro s1 (rfl | hs1)
          · exact he
          · exact (h s1 hs1).2
      · rintro ⟨⟨hnot, hnd⟩, h⟩
        refine ⟨hnd, ?_⟩
        intro s1 hs1
        exact ⟨fun hdim => hnot ⟨s1, hs1, hdim⟩, h s1 (Or.inr hs1)⟩

theorem chain_fields :
    ∀ (ss : List Setter) (q r : MultiDiEdgeQuery), chain ss q = Outcome.value r →
      (∀ S, r.srcs = some S ↔ (q.srcs = some S ∨ Setter.src_nodes S ∈ ss)) ∧
      (∀ S, r.dsts = some S ↔ (q.dsts = some S ∨ Setter.dst_nodes S ∈ ss)) ∧
      (∀ S, r.srcIdxs = some S ↔ (q.srcIdxs = some S ∨ Setter.src_idxs S ∈ ss)) ∧
      (∀ S, r.dstIdxs = some S ↔ (q.dstIdxs = some S ∨ Setter.dst_idxs S ∈ ss)) := by
  intro ss
  induction ss with
  | nil =>
    intro q r h
    simp only [chain, Outcome.value.injEq] at h
    subst h
    simp
  | cons s ss ih =>
    intro q r h
    rcases apply_cases q s with ⟨-, w, hw⟩ | ⟨-, q1, hq1, -, f1, f2, f3, f4⟩
    · rw [chain_cons_raised q s ss w hw] at h
      exact Outcome.noConfusion h
    · rw [chain_cons_value q q1 s ss hq1] at h
      obtain ⟨g1, g2, g3, g4⟩ := ih q1 r h
      refine ⟨?_, ?_, ?_, ?_⟩
      · intro S
        rw [g1, f1, List.mem_cons, @eq_comm _ (Setter.src_nodes S) s, or_assoc]
      · intro S
        rw [g2, f2, List.mem_cons, @eq_comm _ (Setter.dst_nodes S) s, or_assoc]
      · intro S
        rw [g3, f3, List.mem_cons, @eq_comm _ (Setter.src_idxs S) s, or_assoc]
      · intro S
        rw [g4, f4, List.mem_cons, @eq_comm _ (Setter.dst_idxs S) s, or_assoc]

theorem isValue_iff_exists {α : Type} (o : Outcome α) :
    o.isValue = true ↔ ∃ a, o = Outcome.value a := by
  cases o <;> simp [Outcome.isValue]

/-- C19: a chain of plural setter calls on `all()` returns normally exactly
when no member is named twice, and throws otherwise; so a chain that returns
has at most four calls.  When it returns, each member holds exactly the set
passed for it by the chain and is unset when the chain does not name it, and
the same calls in any other order return the same query. -/
theorem C19_chain_succeeds_iff_no_member_twice (ss : List Setter) :
    ((chain ss all).isValue = true ↔ (ss.map Setter.dim).Nodup) ∧
    ((chain ss all).isValue = true ∨ (chain ss all).isRaised = true) ∧
    ((chain ss all).isValue = true → ss.length ≤ 4) ∧
    (∀ r, chain ss all = Outcome.value r →
      (∀ S, r.srcs = some S ↔ Setter.src_nodes S ∈ ss) ∧
      (∀ S, r.dsts = some S ↔ Setter.dst_nodes S ∈ ss) ∧
      (∀ S, r.srcIdxs = some S ↔ Setter.src_idxs S ∈ ss) ∧
      (∀ S, r.dstIdxs = some S ↔ Setter.dst_idxs S ∈ ss)) ∧
    (∀ ss1 r, ss1.Perm ss → chain ss all = Outcome.value r →
      chain ss1 all = Outcome.value r) := by
  have hiff : ∀ l : List Setter,
      (chain l all).isValue = true ↔ (l.map Setter.dim).Nodup := by
    intro l
    rw [chain_isValue_iff]
    constructor
    · exact fun h => h.1
    · intro h
      refine ⟨h, fun s _ => ?_⟩
      cases s <;> rfl
  have hfields : ∀ (l : List Setter) (r : MultiDiEdgeQuery), chain l all = Outcome.value r →
      (∀ S, r.srcs = some S ↔ Setter.src_nodes S ∈ l) ∧
      (∀ S, r.dsts = some S ↔ Setter.dst_nodes S ∈ l) ∧
      (∀ S, r.srcIdxs = some S ↔ Setter.src_idxs S ∈ l) ∧
      (∀ S, r.dstIdxs = some S ↔ Setter.dst_idxs S ∈ l) := by
    intro l r h
    obtain ⟨g1, g2, g3, g4⟩ := chain_fields l all r h
    refine ⟨?_, ?_, ?_, ?_⟩
    · intro S
      rw [g1]
      simp [all]
    · intro S
      rw [g2]
      simp [all]
    · intro S
      rw [g3]
      simp [all]
    · intro S
      rw [g4]
      simp [all]
  refine ⟨hiff ss, chain_value_or_raised ss all, ?_, hfields ss, ?_⟩
  · intro h
    have hnd := (hiff ss).mp h
    have hle := List.Nodup.length_le_card hnd
    have hcard : Fintype.card Dim = 4 := rfl
    rw [List.length_map, hcard] at hle
    exact hle
  · intro ss1 r hperm h
    have hnd : (ss.map Setter.dim).Nodup := (hiff ss).mp ((isValue_iff_exists _).mpr ⟨r, h⟩)
    have hnd1 : (ss1.map Setter.dim).Nodup := ((hperm.map Setter.dim).nodup_iff).mpr hnd
    obtain ⟨r1, hr1⟩ := (isValue_iff_exists _).mp ((hiff ss1).mpr hnd1)
    obtain ⟨a1, a2, a3, a4⟩ := hfields ss r h
    obtain ⟨b1, b2, b3, b4⟩ := hfields ss1 r1 hr1
    have e1 : r1.srcs = r.srcs :=
      option_eq_of_some_iff _ _ fun S => by rw [a1, b1, hperm.mem_iff]
    have e2 : r1.dsts = r.dsts :=
      option_eq_of_some_iff _ _ fun S => by rw [a2, b2, hperm.mem_iff]
    have e3 : r1.srcIdxs = r.srcIdxs :=
      option_eq_of_some_iff _ _ fun S => by rw [a3, b3, hperm.mem_iff]
    have e4 : r1.dstIdxs = r.dstIdxs :=
      option_eq_of_some_iff _ _ fun S => by rw [a4, b4, hperm.mem_iff]
    rw [hr1]
    obtain ⟨x1, x2, x3, x4⟩ := r1
    obtain ⟨y1, y2, y3, y4⟩ := r
    simp only at e1 e2 e3 e4
    rw [e1, e2, e3, e4]

theorem C19_chain_succeeds_iff_no_member_twice_witness :
    chain [Setter.src_nodes {⟨0⟩}, Setter.dst_idxs {0}] all = Outcome.value exampleQuery ∧
    [Setter.src_nodes {⟨0⟩}, Setter.dst_idxs {0}].length ≤ 4 :=
  ⟨(C19_chain_succeeds_iff_no_member_twice [Setter.dst_idxs {0}, Setter.src_nodes {⟨0⟩}]).2.2.2.2
      [Setter.src_nodes {⟨0⟩}, Setter.dst_idxs {0}] exampleQuery
      (List.Perm.swap _ _ _) (by decide),
    (C19_chain_succeeds_iff_no_member_twice
      [Setter.src_nodes {⟨0⟩}, Setter.dst_idxs {0}]).2.2.1 (by decide)⟩

end MultiDiEdgeQuery

end utils

/-! ## The queue: recorded hashes, draining, and the hash-keyed `push` -/

namespace DeduplicatedPriorityQueue

/-- When the conversion of an element to `size_t` yields its hash, the
membership test of `push` is a test on the hash: `push` is the hash-keyed
`push`. -/
theorem push_eq_pushHashKeyed_of_key {Elem : Type} (T : Template Elem)
    (hkey : ∀ e, T.toSizeT e = T.Hash e) (q : DeduplicatedPriorityQueue Elem) (e : Elem) :
    push T q e = pushHashKeyed T q e := by
  unfold push pushHashKeyed contains
  rw [hkey e]
  by_cases h : T.Hash e ∈ q.hashmap <;> simp [h]

/-- When the conversion of an element to `size_t` yields its hash, every queue
reached from a default-constructed one stores elements of pairwise distinct
hashes and records exactly their hashes. -/
theorem run_hashes_of_key {Elem : Type} (T : Template Elem)
    (hkey : ∀ e, T.toSizeT e = T.Hash e) (cs : List (Call Elem))
    (q : DeduplicatedPriorityQueue Elem) (out : List Elem)
    (h : run T cs mk0 = Outcome.value (q, out)) :
    (q.impl.map T.Hash).Nodup ∧ q.hashmap = (q.impl.map T.Hash).toFinset := by
  refine run_invariant T
    (fun q => (q.impl.map T.Hash).Nodup ∧ q.hashmap = (q.impl.map T.Hash).toFinset)
    ?_ ?_ cs mk0 q out ?_ h
  · intro q e ⟨hnd, hset⟩
    unfold push contains
    by_cases hmem : T.toSizeT e ∈ q.hashmap
    · simp only [hmem, decide_True, Bool.not_true, Bool.false_eq_true, if_false]
      exact ⟨hnd, hset⟩
    · simp only [hmem, decide_False, Bool.not_false, if_true]
      have hperm := (PriorityQueue.push_perm T.Compare e q.impl).map T.Hash
      have hnot : T.Hash e ∉ q.impl.map T.Hash := by
        rw [hkey e, hset, List.mem_toFinset] at hmem
        exact hmem
      refine ⟨hperm.nodup_iff.mpr (List.nodup_cons.mpr ⟨hnot, hnd⟩), ?_⟩
      rw [List.toFinset_eq_of_perm _ _ hperm, List.map_cons, List.toFinset_cons, hset]
  · intro q t rest ⟨hnd, hset⟩ hrest
    rw [hrest, List.map_cons] at hnd hset
    obtain ⟨hnot, hnd1⟩ := List.nodup_cons.mp hnd
    refine ⟨hnd1, ?_⟩
    simp only
    rw [hset, List.toFinset_cons, Finset.erase_insert]
    rw [List.mem_toFinset]
    exact hnot
  · exact ⟨List.nodup_nil, rfl⟩

/-- C17 (the code evaluated where it departs from the claim).  With `Hash`
constant `5`: after `push(10); push(3)` two elements are stored while one hash
is recorded, so `size()` is 2 and the membership set has 1 entry; after the
following `pop()` the element `3` is still stored, with hash `5`, while the
membership set is empty although `empty()` is false. -/
theorem C17_recorded_hashes_differ_from_stored :
    run templateConst5 [Call.push 10, Call.push 3] mk0 = Outcome.value (⟨[10, 3], {5}⟩, []) ∧
    size (⟨[10, 3], {5}⟩ : DeduplicatedPriorityQueue Nat) = 2 ∧
    (⟨[10, 3], {5}⟩ : DeduplicatedPriorityQueue Nat).hashmap.card = 1 ∧
    run templateConst5 [Call.push 10, Call.push 3, Call.pop] mk0 =
      Outcome.value (⟨[3], ∅⟩, [10]) ∧
    ((⟨[3], ∅⟩ : DeduplicatedPriorityQueue Nat).impl.map templateConst5.Hash).toFinset = {5} ∧
    (⟨[3], ∅⟩ : DeduplicatedPriorityQueue Nat).hashmap = ∅ ∧
    empty (⟨[3], ∅⟩ : DeduplicatedPriorityQueue Nat) = false := by
  decide

theorem drain_of_size_le {Elem : Type} (T : Template Elem) :
    ∀ (fuel : Nat) (q : DeduplicatedPriorityQueue Elem), size q ≤ fuel →
      drain T fuel q = some (Outcome.value (q.impl,
        ⟨[], q.impl.foldl (fun hm t => hm.erase (T.Hash t)) q.hashmap⟩)) := by
  intro fuel
  induction fuel with
  | zero =>
    intro q hq
    obtain ⟨impl, hm⟩ := q
    cases impl with
    | nil =>
      unfold drain
      simp [empty, PriorityQueue.empty]
    | cons t rest => simp [size, PriorityQueue.size] at hq
  | succ n ih =>
    intro q hq
    obtain ⟨impl, hm⟩ := q
    cases impl with
    | nil =>
      unfold drain
      simp [empty, PriorityQueue.empty]
    | cons t rest =>
      have hrest : size (⟨rest, hm.erase (T.Hash t)⟩ : DeduplicatedPriorityQueue Elem) ≤ n := by
        simp only [size, PriorityQueue.size, List.length_cons] at hq ⊢
        omega
      have := ih ⟨rest, hm.erase (T.Hash t)⟩ hrest
      unfold drain
      simp [empty, PriorityQueue.empty, top, pop, PriorityQueue.top, PriorityQueue.pop,
        Outcome.bind, this]

theorem drain_of_lt_size {Elem : Type} (T : Template Elem) :
    ∀ (fuel : Nat) (q : DeduplicatedPriorityQueue Elem), fuel < size q →
      drain T fuel q = none := by
  intro fuel
  induction fuel with
  | zero =>
    intro q hq
    obtain ⟨impl, hm⟩ := q
    cases impl with
    | nil => simp [size, PriorityQueue.size] at hq
    | cons t rest =>
      unfold drain
      simp [empty, PriorityQueue.empty]
  | succ n ih =>
    intro q hq
    obtain ⟨impl, hm⟩ := q
    cases impl with
    | nil => simp [size, PriorityQueue.size] at hq
    | cons t rest =>
      have hrest : n < size (⟨rest, hm.erase (T.Hash t)⟩ : DeduplicatedPriorityQueue Elem) := by
        simp only [size, PriorityQueue.size, List.length_cons] at hq ⊢
        omega
      have := ih ⟨rest, hm.erase (T.Hash t)⟩ hrest
      unfold drain
      simp [empty, PriorityQueue.empty, top, pop, PriorityQueue.top, PriorityQueue.pop,
        Outcome.bind, this]

/-- C18: draining a queue reached from a default-constructed one (repeating
`top()` then `pop()` until `empty()`, with no `push`) ends after exactly
`size()` iterations, with an empty queue; the values it yields are in
non-increasing order under the comparator and are a permutation of the
elements that were stored. -/
theorem C18_drain_yields_stored_elements_in_order {Elem : Type} (T : Template Elem)
    (hc : StrictWeakOrdering T.Compare) (cs : List (Call Elem))
    (q : DeduplicatedPriorityQueue Elem) (out : List Elem)
    (hreach : run T cs mk0 = Outcome.value (q, out)) :
    ∃ vals qf, (∀ fuel, size q ≤ fuel → drain T fuel q = some (Outcome.value (vals, qf))) ∧
      (∀ fuel, fuel < size q → drain T fuel q = none) ∧
      vals.length = size q ∧ empty qf = true ∧
      vals.Pairwise (fun a b => T.Compare a b = false) ∧ vals.Perm q.impl :=
  ⟨q.impl, ⟨[], q.impl.foldl (fun hm t => hm.erase (T.Hash t)) q.hashmap⟩,
    fun fuel h => drain_of_size_le T fuel q h, fun fuel h => drain_of_lt_size T fuel q h,
    rfl, rfl, run_ordered hc cs q out hreach, List.Perm.refl _⟩

theorem C18_drain_yields_stored_elements_in_order_witness :
    ∃ vals qf,
      (∀ fuel, size (⟨[7, 5, 3], {5, 7, 3}⟩ : DeduplicatedPriorityQueue Nat) ≤ fuel →
        drain templateId fuel ⟨[7, 5, 3], {5, 7, 3}⟩ = some (Outcome.value (vals, qf))) ∧
      (∀ fuel, fuel < size (⟨[7, 5, 3], {5, 7, 3}⟩ : DeduplicatedPriorityQueue Nat) →
        drain templateId fuel ⟨[7, 5, 3], {5, 7, 3}⟩ = none) ∧
      vals.length = size (⟨[7, 5, 3], {5, 7, 3}⟩ : DeduplicatedPriorityQueue Nat) ∧
      empty qf = true ∧
      vals.Pairwise (fun a b => templateId.Compare a b = false) ∧
      vals.Perm (⟨[7, 5, 3], {5, 7, 3}⟩ : DeduplicatedPriorityQueue Nat).impl :=
  C18_drain_yields_stored_elements_in_order templateId strictWeakOrdering_lessNat
    [Call.push 3, Call.push 7, Call.push 5] ⟨[7, 5, 3], {5, 7, 3}⟩ [] (by decide)

/-- C20: `push` as coded tests the element, converted to `size_t`, against the
recorded hashes: it leaves the queue as it was when the element is found there
and otherwise stores the element and records its hash.  For `size_t` elements
(the conversion is the identity) with the identity hash, `push` as coded equals
the hash-keyed `push` on every queue state and every element. -/
theorem C20_push_equals_hash_keyed_push_for_identity_hash (T : Template Nat)
    (q : DeduplicatedPriorityQueue Nat) (e : Nat) :
    (push T q e =
      if T.toSizeT e ∈ q.hashmap then q
      else ⟨PriorityQueue.push T.Compare e q.impl, insert (T.Hash e) q.hashmap⟩) ∧
    ((∀ x, T.toSizeT x = x) → (∀ x, T.Hash x = x) → push T q e = pushHashKeyed T q e) := by
  constructor
  · unfold push contains
    by_cases h : T.toSizeT e ∈ q.hashmap <;> simp [h]
  · intro hconv hid
    unfold push pushHashKeyed contains
    rw [hconv e, hid e]
    by_cases h : e ∈ q.hashmap <;> simp [h]

theorem C20_push_equals_hash_keyed_push_for_identity_hash_witness :
    push templateId ⟨[7, 3], {7, 3}⟩ 5 = pushHashKeyed templateId ⟨[7, 3], {7, 3}⟩ 5 ∧
    push templateId ⟨[7, 3], {7, 3}⟩ 7 = pushHashKeyed templateId ⟨[7, 3], {7, 3}⟩ 7 ∧
    pushHashKeyed templateId ⟨[7, 3], {7, 3}⟩ 5 = ⟨[7, 5, 3], {5, 7, 3}⟩ ∧
    pushHashKeyed templateId ⟨[7, 3], {7, 3}⟩ 7 = ⟨[7, 3], {7, 3}⟩ :=
  ⟨(C20_push_equals_hash_keyed_push_for_identity_hash templateId ⟨[7, 3], {7, 3}⟩ 5).2
      (fun _ => rfl) (fun _ => rfl),
    (C20_push_equals_hash_keyed_push_for_identity_hash templateId ⟨[7, 3], {7, 3}⟩ 7).2
      (fun _ => rfl) (fun _ => rfl),
    by decide, by decide⟩

end DeduplicatedPriorityQueue

end FlexFlow
